import Mathlib

/-! blocksmc-leaderboard-api: leaderboard ingestion, query pipeline and cache

A shallow embedding of `src/index.js`.

* JavaScript strings are lists of characters (`Str`).
* JavaScript numbers are integers, `Infinity`, `-Infinity` or `NaN` (`JsNum`);
  `parseInt`, `+`, `-` and `*` round the exact result to the nearest double,
  which leaves every integer below 2^53 as it is, and give an infinity from
  2^1024 on. The quotients under `Math.ceil` and `Math.round` have an array
  length or a count on one side and are taken exactly. Time stamps, lengths
  and counts are `Int`.
* The module-level variables `top`, `uncategorizedPlayers` and `cache` are the
  fields of an explicit `State`; `Date.now()` is an argument `now`.
* The regular expression `topRegex` is a syntax tree run by a backtracking
  matcher that lists every way to match in the priority order of the
  JavaScript matcher; the first one is the match JavaScript reports.
-/

namespace Leaderboard

/-! ## Strings -/

/-- JavaScript string, as the list of its characters. -/
abbrev Str := List Char

/-- `s.startsWith(t)`. -/
def startsWith (s t : Str) : Bool := t.isPrefixOf s

/-- `s.includes(t)`: `t` occurs in `s` as a contiguous run. -/
def includes : Str → Str → Bool
  | [], t => t.isEmpty
  | c :: s, t => t.isPrefixOf (c :: s) || includes s t

/-- Value of a decimal digit character (`0` for any other character). -/
def digitVal (c : Char) : Nat := c.toNat - 48

/-- Integer value of a digit string read in base ten, most significant digit first. -/
def decimalValue (ds : Str) : Nat := ds.foldl (fun acc c => 10 * acc + digitVal c) 0

/-- Value of a hexadecimal digit character, if it is one. -/
def hexVal (c : Char) : Option Nat :=
  if c.isDigit then some (c.toNat - 48)
  else if 97 ≤ c.toNat ∧ c.toNat ≤ 102 then some (c.toNat - 87)
  else if 65 ≤ c.toNat ∧ c.toNat ≤ 70 then some (c.toNat - 55)
  else none

/-- The regular expression class `\s` (ECMAScript WhiteSpace and LineTerminator). -/
def isSpace (c : Char) : Bool :=
  c.toNat = 9 || c.toNat = 10 || c.toNat = 11 || c.toNat = 12 || c.toNat = 13 ||
  c.toNat = 32 || c.toNat = 160 || c.toNat = 5760 ||
  (8192 ≤ c.toNat && c.toNat ≤ 8202) ||
  c.toNat = 8232 || c.toNat = 8233 || c.toNat = 8239 || c.toNat = 8287 ||
  c.toNat = 12288 || c.toNat = 65279

/-! ## Numbers -/

/-- A JavaScript number whose value is an integer, an infinity or `NaN`. -/
inductive JsNum where
  | nan
  /-- `Infinity`, or `-Infinity` when `negative`. -/
  | inf (negative : Bool)
  | fin (value : Int)
  deriving DecidableEq, Repr

instance (n : Nat) : OfNat JsNum n := ⟨.fin n⟩

/-- Unary minus. -/
def JsNum.neg : JsNum → JsNum
  | .nan => .nan
  | .inf s => .inf (!s)
  | .fin v => .fin (- v)

/-- Number of binary digits of `n`, with `fuel` steps allowed. -/
def bitLengthAux : Nat → Nat → Nat
  | 0, _ => 0
  | fuel + 1, n => if n = 0 then 0 else bitLengthAux fuel (n / 2) + 1

/-- Number of binary digits of `n`. -/
def bitLength (n : Nat) : Nat := bitLengthAux n n

/-- The natural number nearest to `n` that has at most 53 significant binary
digits, a tie going to the even significand (IEEE 754 round to nearest). -/
def roundToDouble (n : Nat) : Nat :=
  let shift := bitLength n - 53
  let q := n / 2 ^ shift
  let r := n % 2 ^ shift
  let half := 2 ^ shift / 2
  if r > half ∨ (r = half ∧ shift ≠ 0 ∧ q % 2 = 1) then (q + 1) * 2 ^ shift
  else q * 2 ^ shift

/-- The number value of the mathematical integer `n`: the nearest double, or
`Infinity` when that has more than 1024 binary digits (is 2^1024 or more). -/
def toDouble (n : Nat) : JsNum :=
  if bitLength (roundToDouble n) ≤ 1024 then .fin (roundToDouble n) else .inf false

/-- The number value of the mathematical integer `v`, of either sign. -/
def JsNum.ofInt (v : Int) : JsNum :=
  if v < 0 then JsNum.neg (toDouble v.natAbs) else toDouble v.natAbs

/-- The operator `+` on numbers: the exact sum, rounded to the nearest double. -/
def JsNum.add : JsNum → JsNum → JsNum
  | .nan, _ => .nan
  | _, .nan => .nan
  | .inf s, .inf t => if s = t then .inf s else .nan
  | .inf s, .fin _ => .inf s
  | .fin _, .inf t => .inf t
  | .fin a, .fin b => JsNum.ofInt (a + b)

/-- The operator `*` on numbers: the exact product, rounded to the nearest
double. -/
def JsNum.mul : JsNum → JsNum → JsNum
  | .nan, _ => .nan
  | _, .nan => .nan
  | .inf s, .inf t => .inf (s != t)
  | .inf s, .fin b => if b = 0 then .nan else .inf (s != decide (b < 0))
  | .fin a, .inf t => if a = 0 then .nan else .inf (decide (a < 0) != t)
  | .fin a, .fin b => JsNum.ofInt (a * b)

instance : Neg JsNum := ⟨JsNum.neg⟩
instance : Add JsNum := ⟨JsNum.add⟩
instance : Sub JsNum := ⟨fun a b => JsNum.add a (JsNum.neg b)⟩
instance : Mul JsNum := ⟨JsNum.mul⟩

/-- The comparison `a <= b`: false when either side is `NaN`. -/
def JsNum.le : JsNum → JsNum → Prop
  | .nan, _ => False
  | _, .nan => False
  | .fin a, .fin b => a ≤ b
  | .inf s, .inf t => s = true ∨ t = false
  | .inf s, .fin _ => s = true
  | .fin _, .inf t => t = false

instance : LE JsNum := ⟨JsNum.le⟩

instance (a b : JsNum) : Decidable (a ≤ b) := by
  show Decidable (JsNum.le a b)
  cases a <;> cases b <;> unfold JsNum.le <;> infer_instance

/-- What a number returned by a comparator counts for in `sort`: `NaN` counts
as 0, and only the sign matters. -/
def JsNum.sortValue : JsNum → Int
  | .nan => 0
  | .inf s => if s then -1 else 1
  | .fin v => v

/-- A numeric field of a parsed record: what `parseInt` gives for a run of
digits, an integer or `Infinity`. -/
inductive Qty where
  | fin (value : Int)
  | inf
  deriving DecidableEq, Repr

instance (n : Nat) : OfNat Qty n := ⟨.fin n⟩

/-- The number held by a numeric field. -/
def Qty.toNum : Qty → JsNum
  | .fin v => .fin v
  | .inf => .inf false

instance : Coe Qty JsNum := ⟨Qty.toNum⟩

/-- The field that holds the number read from a run of digits (which is
neither `NaN` nor negative). -/
def JsNum.toQty : JsNum → Qty
  | .fin v => .fin v
  | .inf _ => .inf
  | .nan => .fin 0

/-- `parseInt(s)` with no radix argument: leading white space is skipped, an
optional sign is read, a `0x`/`0X` start selects base sixteen, and the longest
run of digits is converted to the nearest number (the conversion is taken as
correctly rounded, whatever the number of digits); `NaN` when there is no
digit at that place. -/
def parseInt (s : Str) : JsNum :=
  let t := s.dropWhile isSpace
  let neg : Bool := t.head? = some '-'
  let u := if t.head? = some '-' ∨ t.head? = some '+' then t.tail else t
  let mag : Option Nat :=
    if u.take 2 = ['0', 'x'] ∨ u.take 2 = ['0', 'X'] then
      let hs := (u.drop 2).takeWhile (fun c => (hexVal c).isSome)
      if hs.isEmpty then none
      else some (hs.foldl (fun acc c => 16 * acc + (hexVal c).getD 0) 0)
    else
      let ds := u.takeWhile Char.isDigit
      if ds.isEmpty then none else some (decimalValue ds)
  match mag with
  | none => .nan
  | some n => if neg then - toDouble n else toDouble n

/-! ## Regular expressions -/

/-- Captures of a match in progress: `(group index, captured text)`, the most
recent first. -/
abbrev Caps := List (Nat × Str)

/-- Syntax of the regular expressions used by `topRegex`. -/
inductive Re where
  /-- One character of a class (a literal character is the class of that character). -/
  | chr (p : Char → Bool)
  /-- Concatenation. -/
  | seq (a b : Re)
  /-- Alternation `a|b`: `a` is tried first. -/
  | alt (a b : Re)
  /-- Greedy `a?`: `a` is tried first, then the empty match. -/
  | opt (a : Re)
  /-- Greedy `[class]+`: longer runs are tried first. -/
  | plus (p : Char → Bool)
  /-- Capturing group number `i`. -/
  | group (i : Nat) (a : Re)
  /-- The empty expression. -/
  | eps

/-- A literal character. -/
def Re.lit (c : Char) : Re := Re.chr (fun d => d == c)

/-- Concatenation of a list of expressions. -/
def Re.seqs : List Re → Re
  | [] => Re.eps
  | [a] => a
  | a :: rest => Re.seq a (Re.seqs rest)

/-- A literal string. -/
def Re.lits (s : Str) : Re := Re.seqs (s.map Re.lit)

/-- Every way for `[class]+` to match at the start of the input, as
`(matched, rest)`, the longest first. -/
def plusRun (p : Char → Bool) : Str → List (Str × Str)
  | [] => []
  | c :: s =>
    if p c then (plusRun p s).map (fun x => (c :: x.1, x.2)) ++ [([c], s)] else []

/-- Every way for the expression to match at the start of the input, as
`(matched, rest, captures)`, in the order in which a backtracking matcher
tries them. -/
def Re.run : Re → Str → Caps → List (Str × Str × Caps)
  | .eps, s, cs => [([], s, cs)]
  | .chr p, s, cs =>
    match s with
    | c :: t => if p c then [([c], t, cs)] else []
    | [] => []
  | .seq a b, s, cs =>
    (a.run s cs).flatMap (fun x =>
      (b.run x.2.1 x.2.2).map (fun y => (x.1 ++ y.1, y.2.1, y.2.2)))
  | .alt a b, s, cs => a.run s cs ++ b.run s cs
  | .opt a, s, cs => a.run s cs ++ [([], s, cs)]
  | .plus p, s, cs => (plusRun p s).map (fun x => (x.1, x.2, cs))
  | .group i a, s, cs => (a.run s cs).map (fun x => (x.1, x.2.1, (i, x.1) :: x.2.2))

/-- Result of `exec`/`match`: the matched text (`match[0]`), the text before
and after it, and the captures. -/
structure Match where
  before : Str
  matched : Str
  after : Str
  caps : Caps
  deriving DecidableEq, Repr

/-- Group `i` of a match (`match[i]`); `none` is `undefined`. -/
def Match.group (m : Match) (i : Nat) : Option Str := m.caps.lookup i

/-- The match starting exactly at the start of the input, if any. -/
def Re.matchHere (r : Re) (pre s : Str) : Option Match :=
  (r.run s []).head?.map (fun x => ⟨pre, x.1, x.2.1, x.2.2⟩)

/-- Search for the leftmost start position at which the expression matches;
`pre` is the text already skipped, in reverse. -/
def Re.search (r : Re) : Str → Str → Option Match
  | pre, [] => r.matchHere pre.reverse []
  | pre, c :: s =>
    match r.matchHere pre.reverse (c :: s) with
    | some m => some m
    | none => r.search (c :: pre) s

/-- `str.match(r)` for an expression without flags. -/
def Re.exec (r : Re) (s : Str) : Option Match := r.search [] s

/-- `r.test(str)`. -/
def Re.test (r : Re) (s : Str) : Bool := (r.exec s).isSome

/-- The class `\d`. -/
def isDigitC (c : Char) : Bool := c.isDigit

/-- The class `[0-9a-fk-or]`. -/
def isColorC (c : Char) : Bool :=
  c.isDigit || (97 ≤ c.toNat && c.toNat ≤ 102) || (107 ≤ c.toNat && c.toNat ≤ 111) ||
  c.toNat = 114

/-- The class `[\w_]`. -/
def isWordC (c : Char) : Bool := c.isAlphanum || c == '_'

/-- The class `[^\]]`. -/
def isNotCloseC (c : Char) : Bool := c != ']'

/-- The expression
`/§r§e#(\d+)\s(§[0-9a-fk-or]+[\w_]+)\s(?:(§[0-9a-fk-or]+)\[([^\]]+)\]\s)?§e\((\d+)\s(Hours|Days)\)/`. -/
def topRegex : Re :=
  Re.seqs [
    Re.lits "§r§e#".toList,
    Re.group 1 (Re.plus isDigitC),
    Re.chr isSpace,
    Re.group 2 (Re.seqs [Re.lit '§', Re.plus isColorC, Re.plus isWordC]),
    Re.chr isSpace,
    Re.opt (Re.seqs [
      Re.group 3 (Re.seqs [Re.lit '§', Re.plus isColorC]),
      Re.lit '[',
      Re.group 4 (Re.plus isNotCloseC),
      Re.lit ']',
      Re.chr isSpace]),
    Re.lits "§e(".toList,
    Re.group 5 (Re.plus isDigitC),
    Re.chr isSpace,
    Re.group 6 (Re.alt (Re.lits "Hours".toList) (Re.lits "Days".toList)),
    Re.lit ')']

/-! ## Data model -/

/-- One parsed leaderboard line (the object pushed by `updateLeaderboard`). -/
structure Player where
  top : Qty
  username : Str
  guild : Str
  hour : Qty
  timeUnit : Str
  time : Int
  deriving DecidableEq, Repr

/-- The three leaderboards. -/
inductive Category where
  | LIFETIME
  | MONTHLY
  | WEEKLY
  deriving DecidableEq, Repr

/-- The property name of a category in `top` (and the value stored in
`leaderboardStates`). -/
def Category.name : Category → Str
  | .LIFETIME => "LIFETIME".toList
  | .MONTHLY => "MONTHLY".toList
  | .WEEKLY => "WEEKLY".toList

/-- One entry of `top`: `lastUpdate` is `0` until the first commit. -/
structure TopData where
  lastUpdate : Int
  users : List Player
  deriving DecidableEq, Repr

/-- The module-level object `top`. -/
structure Top where
  LIFETIME : TopData
  MONTHLY : TopData
  WEEKLY : TopData
  deriving DecidableEq, Repr

/-- Read `top[c]`. -/
def Top.get (t : Top) : Category → TopData
  | .LIFETIME => t.LIFETIME
  | .MONTHLY => t.MONTHLY
  | .WEEKLY => t.WEEKLY

/-- Write `top[c]`. -/
def Top.set (t : Top) (c : Category) (d : TopData) : Top :=
  match c with
  | .LIFETIME => { t with LIFETIME := d }
  | .MONTHLY => { t with MONTHLY := d }
  | .WEEKLY => { t with WEEKLY := d }

/-- A record of the `players` array of a response: `{...player, cleanUsername,
hoursPlayed}`. -/
structure ProcessedPlayer where
  player : Player
  cleanUsername : Str
  hoursPlayed : JsNum
  deriving DecidableEq, Repr

/-- The `pagination` object of a leaderboard response. -/
structure Pagination where
  page : JsNum
  limit : JsNum
  totalItems : Int
  totalPages : JsNum
  deriving DecidableEq, Repr

/-- The `responseData` object of `/api/mc/top`. `lastUpdated` is kept as the
time stamp (`none` is `null`), not as its ISO text. -/
structure ResponseData where
  duration : Str
  lastUpdated : Option Int
  isStale : Bool
  pagination : Pagination
  filter : Option Str
  sortBy : Str
  players : List ProcessedPlayer
  deriving DecidableEq, Repr

/-- A member listed under a guild by `/api/mc/guilds`. -/
structure GuildMember where
  username : Str
  rank : Qty
  hours : JsNum
  deriving DecidableEq, Repr

/-- An element of `guildArray`. -/
structure GuildInfo where
  name : Str
  memberCount : Int
  totalHours : JsNum
  averageHours : JsNum
  members : List GuildMember
  deriving DecidableEq, Repr

/-- The `responseData` object of `/api/mc/guilds`. -/
structure GuildsData where
  duration : Str
  lastUpdated : Option Int
  totalGuilds : Int
  guilds : List GuildInfo
  deriving DecidableEq, Repr

/-- A value held by the cache. -/
inductive CacheValue where
  /-- A `responseData` of `/api/mc/top`. -/
  | leaderboard (data : ResponseData)
  /-- An image buffer. -/
  | image (data : List Nat)
  /-- A `responseData` of `/api/mc/guilds`. -/
  | guilds (data : GuildsData)
  /-- Any other cached object (documentation, search results), as text. -/
  | other (body : Str)
  deriving DecidableEq, Repr

/-- The `node-cache` store: its keys with their values, in insertion order.
Expiry by time-to-live is not modelled. -/
abbrev Cache := List (Str × CacheValue)

/-- `cache.keys()`: the array of the stored keys. -/
def Cache.keys (c : Cache) : List Str := c.map Prod.fst

/-- `cache.del(key)`. -/
def Cache.del (c : Cache) (key : Str) : Cache := c.filter (fun e => e.1 != key)

/-- `cache.get(key)`; `none` is `undefined`. -/
def Cache.get (c : Cache) (key : Str) : Option CacheValue := c.lookup key

/-- `cache.set(key, value)`. -/
def Cache.set (c : Cache) (key : Str) (v : CacheValue) : Cache :=
  if c.keys.contains key then c.map (fun e => if e.1 == key then (key, v) else e)
  else c ++ [(key, v)]

/-- `Object.keys(array)`: the own enumerable property names of an array, which
are its indices `"0"`, `"1"`, ... written in decimal. -/
def objectKeysOfArray {α : Type} (a : List α) : List Str :=
  (List.range a.length).map (fun i => (Nat.repr i).toList)

/-- The module-level mutable state of `index.js` that the ingestion and query
code reads and writes. -/
structure State where
  top : Top
  uncategorizedPlayers : List Player
  cache : Cache
  deriving DecidableEq, Repr

/-- State right after the module is loaded. -/
def State.init : State :=
  { top := { LIFETIME := ⟨0, []⟩, MONTHLY := ⟨0, []⟩, WEEKLY := ⟨0, []⟩ },
    uncategorizedPlayers := [],
    cache := [] }

/-- An exception thrown by the JavaScript code. -/
inductive JsError where
  | typeError (message : String)
  | referenceError (identifier : String)
  deriving DecidableEq, Repr

/-! ## Ingestion: `updateLeaderboard` and the `entityUpdate` handler -/

/-- A value interpolated in a template literal: `undefined` prints as the word. -/
def templ (o : Option Str) : Str := o.getD "undefined".toList

/-- The object literal built by `updateLeaderboard` from a match. Groups 1, 2,
5 and 6 take part in every match of `topRegex`, so the defaults standing for
`undefined` are never used, and the numbers read are no `NaN`. -/
def playerOfMatch (m : Match) (now : Int) : Player :=
  { top := (parseInt ((m.group 1).getD [])).toQty,
    username := (m.group 2).getD [],
    guild :=
      match m.group 4 with
      | some (c :: g) => templ (m.group 3) ++ "[".toList ++ (c :: g) ++ "]".toList
      | _ => [],
    hour := (parseInt ((m.group 5).getD [])).toQty,
    timeUnit := (m.group 6).getD [],
    time := now }

/-- `updateLeaderboard(metadata)`, as a function of the buffer
`uncategorizedPlayers`. -/
def updateLeaderboard (metadata : Str) (now : Int) (buf : List Player) : List Player :=
  match topRegex.exec metadata with
  | some m =>
    let buf1 :=
      if buf.length ≥ 10 ∧ parseInt ((m.group 1).getD []) = 1 then [] else buf
    buf1 ++ [playerOfMatch m now]
  | none => buf

/-- The own properties of the object `leaderboardStates`. -/
def leaderboardStates : List (Str × Category) :=
  [ ("§r§6[§6§l§nLifetime§6] §f[Monthly] [Weekly]".toList, Category.LIFETIME),
    ("§r§f[Lifetime] §6[§6§l§nMonthly§6] §f[Weekly]".toList, Category.MONTHLY),
    ("§r§f[Lifetime] [Monthly] §6[§6§l§nWeekly§6]".toList, Category.WEEKLY) ]

/-- The label text of a category (the key of `leaderboardStates` that maps to it). -/
def Category.label : Category → Str
  | .LIFETIME => "§r§6[§6§l§nLifetime§6] §f[Monthly] [Weekly]".toList
  | .MONTHLY => "§r§f[Lifetime] §6[§6§l§nMonthly§6] §f[Weekly]".toList
  | .WEEKLY => "§r§f[Lifetime] [Monthly] §6[§6§l§nWeekly§6]".toList

/-- Property names that every object literal inherits from `Object.prototype`;
reading one of them gives a function or an object, which is truthy. -/
def objectPrototypeKeys : List Str :=
  [ "constructor".toList, "__proto__".toList, "hasOwnProperty".toList,
    "isPrototypeOf".toList, "propertyIsEnumerable".toList, "toLocaleString".toList,
    "toString".toList, "valueOf".toList, "__defineGetter__".toList,
    "__defineSetter__".toList, "__lookupGetter__".toList, "__lookupSetter__".toList ]

/-- Result of reading `leaderboardStates[metadata]`. -/
inductive LabelLookup where
  /-- An own property: the name of a category. -/
  | category (c : Category)
  /-- A property inherited from `Object.prototype` (truthy, and no key of `top`). -/
  | inherited
  /-- No such property: `undefined`. -/
  | undefined
  deriving DecidableEq, Repr

/-- Read `leaderboardStates[metadata]`. -/
def lookupLabel (metadata : Str) : LabelLookup :=
  match leaderboardStates.lookup metadata with
  | some c => .category c
  | none => if objectPrototypeKeys.contains metadata then .inherited else .undefined

/-- The cache invalidation loop of the commit:
`Object.keys(cache.keys()).forEach(key => { if (key.includes(leaderboard)) cache.del(key) })`. -/
def invalidateCategory (leaderboard : Str) (cache : Cache) : Cache :=
  (objectKeysOfArray cache.keys).foldl
    (fun c key => if includes key leaderboard then c.del key else c) cache

/-- The commit of the buffer into `top[leaderboard]`
(the body of `if (uncategorizedPlayers.length > 0)`). -/
def commit (leaderboard : Category) (now : Int) (st : State) : State :=
  let topData := st.top.get leaderboard
  let topData1 : TopData := { topData with lastUpdate := now }
  let topData2 : TopData :=
    if topData1.users.length > 0 then { topData1 with users := [] } else topData1
  let topData3 : TopData :=
    { topData2 with users := topData2.users ++ st.uncategorizedPlayers }
  { top := st.top.set leaderboard topData3,
    uncategorizedPlayers := [],
    cache := invalidateCategory leaderboard.name st.cache }

/-- What the handler asks of the bot before it returns. -/
inductive BotAction where
  | none
  /-- Call `bot.moveTo(entity.position)`. -/
  | moveTo
  /-- Call `setTimeout(() => switchLeaderboardState(bot, entity), 30000)`. -/
  | scheduleSwitch (delay : Nat)
  deriving DecidableEq, Repr

/-- The `entityUpdate` handler. `metadata` is `entity.metadata[2]` (`none` when
the entity has no metadata or no entry 2), `moved` is `bot.moved`. The calls
made on the bot after the state update are returned, not executed. -/
def entityUpdate (moved : Bool) (metadata : Option Str) (now : Int) (st : State) :
    Except JsError (State × BotAction) :=
  match metadata with
  | none => .ok (st, .none)
  | some md =>
    match lookupLabel md with
    | .category leaderboard =>
      let st1 := if st.uncategorizedPlayers.length > 0 then commit leaderboard now st else st
      .ok (st1, if !moved then .moveTo else .scheduleSwitch 30000)
    | .inherited =>
      if st.uncategorizedPlayers.length > 0 then
        .error (.typeError "Cannot set properties of undefined (setting lastUpdate)")
      else .ok (st, if !moved then .moveTo else .scheduleSwitch 30000)
    | .undefined =>
      if topRegex.test md then
        .ok ({ st with uncategorizedPlayers := updateLeaderboard md now st.uncategorizedPlayers },
             .none)
      else .ok (st, .none)

/-! ## Built-ins used by the query code -/

/-- Built-ins whose result depends on Unicode tables, on the locale or on the
shortest decimal form of a double; they are taken as given. -/
structure Builtins where
  toLowerCase : Str → Str
  toUpperCase : Str → Str
  localeCompare : Str → Str → Int
  /-- The text of a finite number of magnitude 10^21 or more (in exponent
  notation). -/
  bigNumberText : Int → Str

/-- The index `slice` starts or stops at for the argument `x`, in an array of
length `len`: `NaN` counts as 0, a negative index counts from the end, and the
result is clamped to the array. -/
def sliceIndex (len : Int) : JsNum → Int
  | .nan => 0
  | .inf s => if s then 0 else len
  | .fin v => if v < 0 then max (len + v) 0 else min v len

/-- `Array.prototype.slice(start, end)` on numbers. -/
def jsSliceNum {α : Type} (l : List α) (start stop : JsNum) : List α :=
  let k := sliceIndex l.length start
  let fin := sliceIndex l.length stop
  (l.drop k.toNat).take (fin - k).toNat

/-- `Array.prototype.slice(start, end)` on integer arguments: a negative
index counts from the end, and both are clamped to the array. -/
def jsSlice {α : Type} (l : List α) (start stop : Int) : List α :=
  let len : Int := l.length
  let k := if start < 0 then max (len + start) 0 else min start len
  let fin := if stop < 0 then max (len + stop) 0 else min stop len
  (l.drop k.toNat).take (fin - k).toNat

/-- Insert `x`, which stood before every element of the sorted list, at its
place: after the elements that the comparator puts strictly before it. -/
def insertSorted {α : Type} (cmp : α → α → Int) (x : α) : List α → List α
  | [] => [x]
  | y :: ys => if cmp x y ≤ 0 then x :: y :: ys else y :: insertSorted cmp x ys

/-- `Array.prototype.sort(cmp)`: a stable sort (ECMAScript 2019), here by
insertion. For a consistent comparator every stable sort gives this result. -/
def jsSort {α : Type} (cmp : α → α → Int) (l : List α) : List α :=
  l.foldr (insertSorted cmp) []

/-- `str.replace(/§[0-9a-fk-or]/g, "")`: each colour marker found when
scanning from the left is removed. -/
def stripColors : Str → Str
  | [] => []
  | [c] => [c]
  | c :: d :: s =>
    if c = '§' ∧ isColorC d then stripColors s else c :: stripColors (d :: s)

/-- The decimal text of an integer. -/
def intToStr : Int → Str
  | .ofNat n => (Nat.repr n).toList
  | .negSucc n => '-' :: (Nat.repr (n + 1)).toList

/-- A number interpolated in a template literal. -/
def numToStr (js : Builtins) : JsNum → Str
  | .nan => "NaN".toList
  | .inf s => if s then "-Infinity".toList else "Infinity".toList
  | .fin v => if v.natAbs < 10 ^ 21 then intToStr v else js.bigNumberText v

/-- `Math.ceil(n / d)` for integers `n` and `d`, `d` not zero. -/
def ceilDiv (n d : Int) : Int := - Int.fdiv (- n) d

/-- `Math.round(n / d)` for integers `n` and `d`, `d` positive: halves go up. -/
def roundDiv (n d : Int) : Int := Int.fdiv (2 * n + d) (2 * d)

/-- `Math.ceil(n / limit)` for a length `n` and a number `limit`: the ceiling
of the exact quotient (an array length is below 2^32, and the rounding of the
quotient of such a length by an integer reaches no integer that the exact
quotient does not reach). -/
def ceilQuot (n : Int) : JsNum → JsNum
  | .nan => .nan
  | .inf _ => 0
  | .fin d => if d = 0 then (if n = 0 then .nan else .inf (decide (n < 0))) else .fin (ceilDiv n d)

/-- `Math.round(total / count)` for a number `total` and a positive count,
taken on the exact quotient. -/
def roundQuot (total : JsNum) (count : Int) : JsNum :=
  match total with
  | .nan => .nan
  | .inf s => .inf s
  | .fin t => .fin (roundDiv t count)

/-! ## The query pipeline of `/api/mc/top` -/

/-- The expression `p.timeUnit === "Days" ? p.hour * 24 : p.hour`. -/
def normalizedHours (p : Player) : JsNum :=
  if p.timeUnit = "Days".toList then p.hour * 24 else p.hour

/-- The guild filter: applied when `filterGuild` is truthy. -/
def filterStep (js : Builtins) (filterGuild : Option Str) (users : List Player) :
    List Player :=
  match filterGuild with
  | some (c :: f) =>
    users.filter (fun player =>
      !player.guild.isEmpty &&
        includes (js.toLowerCase player.guild) (js.toLowerCase (c :: f)))
  | _ => users

/-- The `switch (sortBy)` statement. -/
def sortStep (js : Builtins) (sortBy : Str) (users : List Player) : List Player :=
  if sortBy = "username".toList then
    jsSort (fun a b => js.localeCompare a.username b.username) users
  else if sortBy = "time".toList then
    jsSort (fun a b =>
      let aHours := normalizedHours a
      let bHours := normalizedHours b
      (bHours - aHours).sortValue) users
  else
    jsSort (fun a b => ((a.top : JsNum) - (b.top : JsNum)).sortValue) users

/-- The pagination, `filteredUsers.slice(startIndex, endIndex)`, with the
indices of an integer page and limit computed exactly. It is what
`paginateNum` returns for a page and a limit from 1 on and fewer than 2^53
records (`paginateNum_fin`). -/
def paginate (page limit : Int) (filteredUsers : List Player) : List Player :=
  let startIndex := (page - 1) * limit
  let endIndex := startIndex + limit
  jsSlice filteredUsers startIndex endIndex

/-- The pagination of the handler, `filteredUsers.slice(startIndex, endIndex)`
with `startIndex = (page - 1) * limit` and `endIndex = startIndex + limit`, for
any page and limit. -/
def paginateNum (page limit : JsNum) (filteredUsers : List Player) : List Player :=
  let startIndex := (page - 1) * limit
  let endIndex := startIndex + limit
  jsSliceNum filteredUsers startIndex endIndex

/-- The object built for each record by `paginatedUsers.map`. -/
def processPlayer (player : Player) : ProcessedPlayer :=
  { player := player,
    cleanUsername := stripColors player.username,
    hoursPlayed := normalizedHours player }

/-- The query string of a request to `/api/mc/top` in which every parameter
is absent (`none`) or given once, as a string. A parameter that is repeated or
written with brackets reaches the handler as an array or an object:
`RawTopQuery` and `apiMcTopRaw` cover those requests. -/
structure TopQuery where
  responseType : Option Str
  duration : Option Str
  guild : Option Str
  limit : Option Str
  page : Option Str
  sortBy : Option Str

/-- The expression `x || d` on an optional string: `undefined` and `""` are falsy. -/
def strOr (x : Option Str) (d : Str) : Str :=
  match x with
  | some (c :: s) => c :: s
  | _ => d

/-- The expression `parseInt(x) || d`: `NaN` and `0` are falsy. -/
def parseIntOr (x : Option Str) (d : JsNum) : JsNum :=
  match parseInt (templ x) with
  | .nan => d
  | .fin v => if v = 0 then d else .fin v
  | .inf s => .inf s

/-- The category named by a validated `duration`. -/
def Category.ofName (s : Str) : Option Category :=
  if s = "LIFETIME".toList then some .LIFETIME
  else if s = "MONTHLY".toList then some .MONTHLY
  else if s = "WEEKLY".toList then some .WEEKLY
  else none

/-- The parameters of a request to `/api/mc/top` after the defaults are applied. -/
structure TopParams where
  responseType : Str
  duration : Str
  filterGuild : Option Str
  limit : JsNum
  page : JsNum
  sortBy : Str
  deriving DecidableEq, Repr

/-- The extraction of the query parameters with their defaults. -/
def topParams (js : Builtins) (q : TopQuery) : TopParams :=
  { responseType := strOr (q.responseType.map js.toLowerCase) "json".toList,
    duration := strOr (q.duration.map js.toUpperCase) "MONTHLY".toList,
    filterGuild :=
      match q.guild with
      | some (c :: g) => some (c :: g)
      | _ => none,
    limit := parseIntOr q.limit 10,
    page := parseIntOr q.page 1,
    sortBy := strOr q.sortBy "top".toList }

/-- The template literal that builds the cache key of `/api/mc/top`. -/
def topCacheKey (js : Builtins) (p : TopParams) : Str :=
  "leaderboard_".toList ++ p.duration ++ "_".toList ++ p.responseType ++ "_".toList ++
    numToStr js p.limit ++ "_".toList ++ numToStr js p.page ++ "_".toList ++ p.sortBy ++
    "_".toList ++ strOr p.filterGuild "all".toList

/-- What a handler sends. -/
inductive Response where
  /-- `res.status(status).json(...)` with an error message. -/
  | error (status : Nat) (message : String)
  /-- `res.json` with `success: true`, the `cached` flag and the data. -/
  | json (cached : Bool) (data : CacheValue)
  /-- `res.send(data)` with the image headers. -/
  | send (data : CacheValue)
  /-- The handler returned without sending anything. -/
  | pending
  /-- `res.json` with `success: true` and a message. -/
  | success (message : String)
  deriving DecidableEq, Repr

/-- Outcome of a handler that ran to its end. -/
structure Handled where
  response : Response
  state : State
  /-- Whether `triggerLeaderboardRefresh` was called. -/
  refresh : Bool

/-- The binding of the identifier `bypassCache` where the handlers evaluate
it. Neither `index.js` nor `assets/design.js` declares or assigns it, so there
is none. -/
def bypassCache : Option Bool := none

/-- The staleness test of `/api/mc/top`:
`!leaderboardData.lastUpdate || dataAge > 5 * 60 * 1000`. -/
def isDataStale (lastUpdate now : Int) : Bool :=
  let dataAge := now - lastUpdate
  lastUpdate = 0 || dataAge > 5 * 60 * 1000

/-- The part of `/api/mc/top` after the cache check. `render` is
`createLeaderboard` of `assets/design.js` (`none` when it throws). -/
def topAfterCacheCheck (js : Builtins)
    (render : List ProcessedPlayer → Str → Int → Option Str → Option (List Nat))
    (p : TopParams) (cacheKey : Str) (now : Int) (st : State) : Handled :=
  match Category.ofName p.duration with
  | none => ⟨.error 404 "No leaderboard data available", st, false⟩
  | some duration =>
    let leaderboardData := st.top.get duration
    let stale := isDataStale leaderboardData.lastUpdate now
    let filteredUsers :=
      sortStep js p.sortBy (filterStep js p.filterGuild leaderboardData.users)
    let paginatedUsers := paginateNum p.page p.limit filteredUsers
    let processedUsers := paginatedUsers.map processPlayer
    let responseData : ResponseData :=
      { duration := p.duration,
        lastUpdated :=
          if leaderboardData.lastUpdate = 0 then none else some leaderboardData.lastUpdate,
        isStale := stale,
        pagination :=
          { page := p.page, limit := p.limit, totalItems := filteredUsers.length,
            totalPages := ceilQuot filteredUsers.length p.limit },
        filter := p.filterGuild,
        sortBy := p.sortBy,
        players := processedUsers }
    let st1 := { st with cache := st.cache.set cacheKey (.leaderboard responseData) }
    if p.responseType = "json".toList then
      ⟨.json false (.leaderboard responseData), st1, stale⟩
    else if p.responseType = "image".toList then
      match render processedUsers p.duration
          (if leaderboardData.lastUpdate = 0 then now else leaderboardData.lastUpdate)
          p.filterGuild with
      | some imageBuffer =>
        ⟨.send (.image imageBuffer),
          { st1 with cache := st1.cache.set cacheKey (.image imageBuffer) }, stale⟩
      | none => ⟨.error 500 "Failed to generate leaderboard image", st1, stale⟩
    else ⟨.pending, st1, stale⟩

/-- The handler of `GET /api/mc/top`. -/
def apiMcTop (js : Builtins)
    (render : List ProcessedPlayer → Str → Int → Option Str → Option (List Nat))
    (q : TopQuery) (now : Int) (st : State) : Except JsError Handled :=
  let p := topParams js q
  if ¬ (p.responseType = "json".toList ∨ p.responseType = "image".toList) then
    .ok ⟨.error 400 "Invalid response type. Must be json or image", st, false⟩
  else if Category.ofName p.duration = none then
    .ok ⟨.error 400 "Invalid duration. Must be lifetime, monthly, or weekly", st, false⟩
  else
    let cacheKey := topCacheKey js p
    match bypassCache with
    | none => .error (.referenceError "bypassCache")
    | some bypass =>
      match (if bypass then none else st.cache.get cacheKey) with
      | some cachedData =>
        if p.responseType = "json".toList then .ok ⟨.json true cachedData, st, false⟩
        else if p.responseType = "image".toList then .ok ⟨.send cachedData, st, false⟩
        else .ok (topAfterCacheCheck js render p cacheKey now st)
      | none => .ok (topAfterCacheCheck js render p cacheKey now st)

/-- What the code of `/api/mc/top` after the cache check sends for the
parameters `p`, with the cache key that the handler builds from them. -/
def topResponse (js : Builtins)
    (render : List ProcessedPlayer → Str → Int → Option Str → Option (List Nat))
    (p : TopParams) (now : Int) (st : State) : Response :=
  (topAfterCacheCheck js render p (topCacheKey js p) now st).response

/-- A query parameter as Express hands it to a handler: a string when the key
is given once; an array or an object, of which the text `String(v)` is kept,
when the key is repeated or written with brackets. -/
inductive QueryValue where
  | str (s : Str)
  | other (text : Str)
  deriving DecidableEq, Repr

/-- `String(v)`. -/
def QueryValue.text : QueryValue → Str
  | .str s => s
  | .other t => t

/-- The query string of any request to `/api/mc/top`; `none` is an absent
parameter. -/
structure RawTopQuery where
  responseType : Option QueryValue
  duration : Option QueryValue
  guild : Option QueryValue
  limit : Option QueryValue
  page : Option QueryValue
  sortBy : Option QueryValue

/-- The handler of `GET /api/mc/top` on any request. The calls
`req.query.responseType?.toLowerCase()` and `req.query.duration?.toUpperCase()`
throw a TypeError on a value that is no string, which has no such method. The
other parameters are read through their text: `parseInt` converts its argument
to a string, and a guild or a sort field only enters the cache key before the
handler evaluates `bypassCache` and stops. -/
def apiMcTopRaw (js : Builtins)
    (render : List ProcessedPlayer → Str → Int → Option Str → Option (List Nat))
    (q : RawTopQuery) (now : Int) (st : State) : Except JsError Handled :=
  match q.responseType with
  | some (.other _) =>
    .error (.typeError "req.query.responseType?.toLowerCase is not a function")
  | _ =>
    match q.duration with
    | some (.other _) =>
      .error (.typeError "req.query.duration?.toUpperCase is not a function")
    | _ =>
      apiMcTop js render
        ⟨q.responseType.map QueryValue.text, q.duration.map QueryValue.text,
          q.guild.map QueryValue.text, q.limit.map QueryValue.text,
          q.page.map QueryValue.text, q.sortBy.map QueryValue.text⟩ now st

/-! ## The handler of `/api/mc/guilds` -/

/-- The running totals kept per guild name in the object `guilds`. -/
structure GuildTotals where
  count : Int
  totalHours : JsNum
  members : List GuildMember

/-- The body of the `forEach` that fills `guilds`. Guild tags come from
`updateLeaderboard` and contain a bracket, so no name is an array index or a
property of `Object.prototype`, and `guilds` lists its names in insertion order. -/
def addToGuilds (guilds : List (Str × GuildTotals)) (player : Player) :
    List (Str × GuildTotals) :=
  if player.guild.isEmpty then guilds
  else
    let guildName := stripColors player.guild
    let guilds1 :=
      if (guilds.lookup guildName).isSome then guilds
      else guilds ++ [(guildName, ⟨0, 0, []⟩)]
    let hours := normalizedHours player
    guilds1.map (fun e =>
      if e.1 = guildName then
        (e.1, { count := e.2.count + 1, totalHours := e.2.totalHours + hours,
                members := e.2.members ++
                  [⟨stripColors player.username, player.top, hours⟩] })
      else e)

/-- The part of `/api/mc/guilds` after the cache check. `refreshed` is what
`triggerLeaderboardRefresh` returns. -/
def guildsAfterCacheCheck (duration : Category) (cacheKey : Str) (refreshed : Bool)
    (st : State) : Handled :=
  let users := (st.top.get duration).users
  if users.length = 0 then
    ⟨.error 404 (if refreshed then "refresh triggered" else "refresh failed"), st, true⟩
  else
    let guilds := users.foldl addToGuilds []
    let guildArray : List GuildInfo :=
      jsSort (fun a b => b.memberCount - a.memberCount)
        (guilds.map (fun e =>
          { name := e.1, memberCount := e.2.count, totalHours := e.2.totalHours,
            averageHours := roundQuot e.2.totalHours e.2.count, members := e.2.members }))
    let lastUpdate := (st.top.get duration).lastUpdate
    let responseData : GuildsData :=
      { duration := duration.name,
        lastUpdated := if lastUpdate = 0 then none else some lastUpdate,
        totalGuilds := guildArray.length,
        guilds := guildArray }
    ⟨.json false (.guilds responseData),
      { st with cache := st.cache.set cacheKey (.guilds responseData) }, false⟩

/-- The handler of `GET /api/mc/guilds`; `duration` is `req.query.duration`. -/
def apiMcGuilds (js : Builtins) (duration : Option Str) (refreshed : Bool) (st : State) :
    Except JsError Handled :=
  let d := strOr (duration.map js.toUpperCase) "MONTHLY".toList
  match Category.ofName d with
  | none =>
    .ok ⟨.error 400 "Invalid duration. Must be lifetime, monthly, or weekly", st, false⟩
  | some cat =>
    let cacheKey := "guilds_".toList ++ d
    match bypassCache with
    | none => .error (.referenceError "bypassCache")
    | some bypass =>
      match (if bypass then none else st.cache.get cacheKey) with
      | some cachedData => .ok ⟨.json true cachedData, st, false⟩
      | none => .ok (guildsAfterCacheCheck cat cacheKey refreshed st)

/-! ## The handler of `/api/cache/clear` -/

/-- The body of a request to `/api/cache/clear`; `none` is an absent field. -/
structure ClearBody where
  key : Option Str
  target : Option Str

/-- The admin key used when the environment sets none. -/
def defaultAdminKey : Str := "BLOCKSMC_LEADERBOARD_API_ADMIN_SECRET_KEY".toList

/-- The loop of a scoped clear:
`Object.keys(cache.keys()).forEach(cacheKey => { if (test(cacheKey)) cache.del(cacheKey) })`. -/
def clearWhere (test : Str → Bool) (cache : Cache) : Cache :=
  (objectKeysOfArray cache.keys).foldl
    (fun c cacheKey => if test cacheKey then c.del cacheKey else c) cache

/-- The handler of `POST /api/cache/clear`. `envKey` is
`process.env.ADMIN_API_KEY`. -/
def apiCacheClear (js : Builtins) (envKey : Option Str) (body : ClearBody) (st : State) :
    Response × State :=
  let adminKey := strOr envKey defaultAdminKey
  if body.key ≠ some adminKey then (.error 401 "Unauthorized. Invalid API key.", st)
  else
    let target := body.target.map js.toLowerCase
    if target = some "leaderboard".toList then
      (.success "Leaderboard cache cleared",
        { st with cache := clearWhere (fun k => startsWith k "leaderboard_".toList) st.cache })
    else if target = some "guilds".toList then
      (.success "Guilds cache cleared",
        { st with cache := clearWhere (fun k => startsWith k "guilds_".toList) st.cache })
    else if target = some "images".toList then
      (.success "Image cache cleared",
        { st with cache := clearWhere (fun k => includes k "_image_".toList) st.cache })
    else (.success "All cache cleared", { st with cache := [] })

/-! ## The staleness sweeper -/

/-- The callback of the periodic `setInterval`: for each key of `top`, in
order, `if (now - top[key].lastUpdate > MAX_DATA_AGE) top[key].lastUpdate = 0`. -/
def sweep (now : Int) (st : State) : State :=
  { st with
    top := [Category.LIFETIME, Category.MONTHLY, Category.WEEKLY].foldl
      (fun t key =>
        if now - (t.get key).lastUpdate > 60 * 60 * 1000 then
          t.set key { t.get key with lastUpdate := 0 }
        else t) st.top }

/-! ## Reconnection -/

/-- The constant `MAX_RECONNECT_ATTEMPTS`. -/
def MAX_RECONNECT_ATTEMPTS : Nat := 5

/-- The constant `RECONNECT_DELAY`, in milliseconds. -/
def RECONNECT_DELAY : Nat := 10000

/-- The module-level variables of the reconnection code: the counter
`reconnectAttempts`, and whether `mcbot` holds a bot instance. -/
structure Supervisor where
  reconnectAttempts : Nat
  mcbot : Bool
  deriving DecidableEq, Repr

/-- `attemptReconnect()`: the new state and the delay of the timer that will
call `startBot`, or `none` when no timer is set. -/
def attemptReconnect (s : Supervisor) : Supervisor × Option Nat :=
  if s.reconnectAttempts < MAX_RECONNECT_ATTEMPTS then
    let reconnectAttempts := s.reconnectAttempts + 1
    let delay := RECONNECT_DELAY * 2 ^ (reconnectAttempts - 1)
    ({ s with reconnectAttempts := reconnectAttempts }, some delay)
  else (s, none)

/-- `startBot()`: the previous instance, if any, is ended, a new one is
created, and `reconnectAttempts` is set to 0. -/
def startBot (_s : Supervisor) : Supervisor :=
  { reconnectAttempts := 0, mcbot := true }

/-- One disconnect of a bot that never connects: the `end` handler calls
`attemptReconnect`; when that sets a timer, the timer fires and calls
`startBot`, whose bot will end in turn. The delay of the timer is returned. -/
def failedReconnect (s : Supervisor) : Supervisor × Option Nat :=
  match attemptReconnect s with
  | (s1, some delay) => (startBot s1, some delay)
  | (s1, none) => (s1, none)

/-- The delays of the timers set during `n` disconnects in a row of bots that
never connect. -/
def failedReconnects : Nat → Supervisor → List (Option Nat)
  | 0, _ => []
  | n + 1, s => (failedReconnect s).2 :: failedReconnects n (failedReconnect s).1

/-! ## Evaluation instance of the built-ins -/

/-- The built-ins on ASCII text (case mapping of the letters `a` to `z`,
comparison by character code) and on numbers below 10^21; used to evaluate the
handlers on examples. -/
def asciiBuiltins : Builtins :=
  { toLowerCase := fun s => s.map Char.toLower,
    toUpperCase := fun s => s.map Char.toUpper,
    localeCompare := fun a b =>
      if a = b then 0 else if (String.mk a) < (String.mk b) then -1 else 1,
    bigNumberText := fun v => intToStr v }

/-! ## The grammar of a leaderboard line and the declarative reading of expressions -/

/-- Declarative reading of an expression: `r.Derives m c c1` says that `r`
matches exactly the text `m`, turning the captures `c` into `c1`. -/
def Re.Derives : Re → Str → Caps → Caps → Prop
  | .eps, m, c, c1 => m = [] ∧ c1 = c
  | .chr p, m, c, c1 => ∃ ch, p ch = true ∧ m = [ch] ∧ c1 = c
  | .seq a b, m, c, c1 =>
    ∃ m1 m2 c2, m = m1 ++ m2 ∧ a.Derives m1 c c2 ∧ b.Derives m2 c2 c1
  | .alt a b, m, c, c1 => a.Derives m c c1 ∨ b.Derives m c c1
  | .opt a, m, c, c1 => a.Derives m c c1 ∨ (m = [] ∧ c1 = c)
  | .plus p, m, c, c1 => m ≠ [] ∧ (∀ ch ∈ m, p ch = true) ∧ c1 = c
  | .group i a, m, c, c1 => ∃ c2, a.Derives m c c2 ∧ c1 = (i, m) :: c2

/-- A non-empty run of characters of one class. -/
def Run (p : Char → Bool) (m : Str) : Prop := m ≠ [] ∧ ∀ ch ∈ m, p ch = true

instance (p : Char → Bool) (m : Str) : Decidable (Run p m) := by
  unfold Run; infer_instance

/-- The parts of a leaderboard line named by the grammar: the digits of the
rank, the username token (its colour codes and its name), the optional guild
segment (colour codes of its marker, bracketed name, white space after it), the
digits of the amount and the unit word, with the white space between them. -/
structure Entry where
  rank : Str
  sep1 : Char
  color : Str
  name : Str
  sep2 : Char
  guild : Option (Str × Str × Char)
  amount : Str
  sep3 : Char
  unit : Str

/-- The guild segment is a colour marker, a bracketed name without a closing
bracket in it, and a white space. -/
def GuildOk : Option (Str × Str × Char) → Prop
  | none => True
  | some (gc, gn, sp) => Run isColorC gc ∧ Run isNotCloseC gn ∧ isSpace sp = true

instance (g : Option (Str × Str × Char)) : Decidable (GuildOk g) := by
  cases g with
  | none => unfold GuildOk; infer_instance
  | some x => obtain ⟨gc, gn, sp⟩ := x; unfold GuildOk; infer_instance

/-- The parts are of the classes the grammar asks for. -/
def Entry.Ok (e : Entry) : Prop :=
  Run isDigitC e.rank ∧ isSpace e.sep1 = true ∧ Run isColorC e.color ∧ Run isWordC e.name ∧
  isSpace e.sep2 = true ∧ GuildOk e.guild ∧ Run isDigitC e.amount ∧ isSpace e.sep3 = true ∧
  (e.unit = "Hours".toList ∨ e.unit = "Days".toList)

instance (e : Entry) : Decidable e.Ok := by
  unfold Entry.Ok; infer_instance

/-- The text of the guild segment. -/
def guildText : Option (Str × Str × Char) → Str
  | none => []
  | some (gc, gn, sp) => '§' :: gc ++ '[' :: gn ++ [']', sp]

/-- The text of an entry: reset and colour markers, `#` and the rank, the
username token, the guild segment if any, and `(amount unit)` after a colour
marker. -/
def Entry.text (e : Entry) : Str :=
  "§r§e#".toList ++ e.rank ++ e.sep1 :: ('§' :: e.color ++ e.name) ++ e.sep2 ::
    guildText e.guild ++ "§e(".toList ++ e.amount ++ e.sep3 :: e.unit ++ ")".toList

/-- The username token of an entry, colour marker included. -/
def Entry.username (e : Entry) : Str := '§' :: e.color ++ e.name

/-- The guild tag of an entry: the colour marker followed by the bracketed
name, or the empty string without a guild segment. -/
def Entry.guildTag (e : Entry) : Str :=
  match e.guild with
  | none => []
  | some (gc, gn, _) => ('§' :: gc) ++ "[".toList ++ gn ++ "]".toList

/-- The captures that a match of the entry records. -/
def Entry.caps (e : Entry) : Caps :=
  [(6, e.unit), (5, e.amount)] ++
    (match e.guild with
     | none => []
     | some (gc, gn, _) => [(4, gn), (3, '§' :: gc)]) ++
    [(2, e.username), (1, e.rank)]

/-- The integer that a run of decimal digits denotes: each digit counts for
its value times the power of ten of its place. -/
def integerValue : Str → Nat
  | [] => 0
  | c :: ds => (c.toNat - 48) * 10 ^ ds.length + integerValue ds

/-- The record that the grammar assigns to an entry: the rank and the amount
are the numbers nearest to the integers that their digit groups denote, the
username is the token with its colour marker, the guild tag is the marker
followed by the bracketed name. -/
def Entry.record (e : Entry) (now : Int) : Player :=
  { top := (toDouble (integerValue e.rank)).toQty,
    username := e.username,
    guild := e.guildTag,
    hour := (toDouble (integerValue e.amount)).toQty,
    timeUnit := e.unit,
    time := now }

/-- The `players` array of a response of `/api/mc/top` (empty for any other
response). -/
def Response.players : Response → List ProcessedPlayer
  | .json _ (.leaderboard data) => data.players
  | _ => []

/-! ## Lemmas -/

theorem includes_mem {s t : Str} (h : includes s t = true) : ∀ c ∈ t, c ∈ s := by
  induction s with
  | nil =>
    cases t with
    | nil => intro c hc; cases hc
    | cons d t => simp [includes] at h
  | cons a s ih =>
    intro c hc
    simp only [includes, Bool.or_eq_true] at h
    rcases h with h | h
    · have hp : t <+: a :: s := List.isPrefixOf_iff_prefix.mp h
      exact hp.subset hc
    · exact List.mem_cons_of_mem _ (ih h c hc)

theorem digitChar_isDigit (k : Nat) (hk : k < 10) : (Nat.digitChar k).isDigit = true := by
  interval_cases k <;> decide

theorem toDigitsCore_isDigit (f : Nat) : ∀ (n : Nat) (ds : List Char),
    (∀ c ∈ ds, c.isDigit = true) → ∀ c ∈ Nat.toDigitsCore 10 f n ds, c.isDigit = true := by
  induction f with
  | zero => intro n ds h; simpa [Nat.toDigitsCore] using h
  | succ f ih =>
    intro n ds h
    have hd : (Nat.digitChar (n % 10)).isDigit = true :=
      digitChar_isDigit _ (Nat.mod_lt _ (by decide))
    have h2 : ∀ c ∈ Nat.digitChar (n % 10) :: ds, c.isDigit = true := by
      intro c hc
      rcases List.mem_cons.mp hc with rfl | hc
      · exact hd
      · exact h c hc
    simp only [Nat.toDigitsCore]
    split
    · exact h2
    · exact ih _ _ h2

theorem repr_isDigit (n : Nat) : ∀ c ∈ (Nat.repr n).toList, c.isDigit = true := by
  intro c hc
  have : c ∈ Nat.toDigits 10 n := by simpa [Nat.repr] using hc
  exact toDigitsCore_isDigit _ _ _ (by simp) c this

theorem Category.name_head_not_digit (c : Category) :
    ∃ ch ∈ c.name, ch.isDigit = false := by
  cases c
  · exact ⟨'L', by decide, by decide⟩
  · exact ⟨'M', by decide, by decide⟩
  · exact ⟨'W', by decide, by decide⟩

theorem includes_index_name (i : Nat) (c : Category) :
    includes (Nat.repr i).toList c.name = false := by
  rcases c.name_head_not_digit with ⟨ch, hch, hd⟩
  cases h : includes (Nat.repr i).toList c.name with
  | false => rfl
  | true =>
    have := repr_isDigit i ch (includes_mem h ch hch)
    rw [this] at hd
    cases hd

theorem foldl_keep {α β : Type} (f : β → α → β) (l : List α) (b : β)
    (h : ∀ x ∈ l, ∀ y, f y x = y) : l.foldl f b = b := by
  induction l generalizing b with
  | nil => rfl
  | cons a l ih =>
    simp only [List.foldl_cons]
    rw [h a (List.mem_cons_self _ _)]
    exact ih b (fun x hx => h x (List.mem_cons_of_mem _ hx))

/-- The invalidation loop of the commit deletes nothing: it walks the indices
of the key array, and no index contains the name of a category. -/
theorem invalidateCategory_eq (c : Category) (cache : Cache) :
    invalidateCategory c.name cache = cache := by
  unfold invalidateCategory
  apply foldl_keep
  intro key hkey y
  simp only [objectKeysOfArray, List.mem_map, List.mem_range] at hkey
  rcases hkey with ⟨i, _, rfl⟩
  simp only [includes_index_name]
  rfl

theorem lookupLabel_label (c : Category) : lookupLabel c.label = .category c := by
  cases c <;> decide

theorem Top.get_set (t : Top) (c : Category) (d : TopData) : (t.set c d).get c = d := by
  cases c <;> rfl

theorem Top.get_set_ne (t : Top) (c e : Category) (d : TopData) (h : e ≠ c) :
    (t.set c d).get e = t.get e := by
  cases c <;> cases e <;> first | rfl | exact absurd rfl h

theorem commit_users (c : Category) (now : Int) (st : State) :
    ((commit c now st).top.get c).users = st.uncategorizedPlayers := by
  simp only [commit, Top.get_set]
  split <;> simp_all

/-- The `entityUpdate` handler on the label of a category with a non-empty buffer. -/
theorem entityUpdate_label_commit (moved : Bool) (c : Category) (now : Int) (st : State)
    (h : st.uncategorizedPlayers ≠ []) :
    entityUpdate moved (some c.label) now st =
      .ok (commit c now st, if !moved then .moveTo else .scheduleSwitch 30000) := by
  have hlen : st.uncategorizedPlayers.length > 0 := List.length_pos.mpr h
  simp [entityUpdate, lookupLabel_label, hlen]

theorem includes_iff (s t : Str) : includes s t = true ↔ t <:+: s := by
  induction s with
  | nil =>
    cases t with
    | nil => simp [includes]
    | cons d t => simp [includes]
  | cons a s ih =>
    simp only [includes, Bool.or_eq_true, List.infix_cons_iff, ih,
      List.isPrefixOf_iff_prefix]

theorem insertSorted_perm {α : Type} (cmp : α → α → Int) (x : α) (l : List α) :
    (insertSorted cmp x l).Perm (x :: l) := by
  induction l with
  | nil => exact List.Perm.refl _
  | cons y ys ih =>
    simp only [insertSorted]
    split
    · exact List.Perm.refl _
    · exact (List.Perm.cons y ih).trans (List.Perm.swap x y ys)

theorem jsSort_perm {α : Type} (cmp : α → α → Int) (l : List α) :
    (jsSort cmp l).Perm l := by
  induction l with
  | nil => exact List.Perm.refl _
  | cons x xs ih =>
    exact (insertSorted_perm cmp x (jsSort cmp xs)).trans (List.Perm.cons x ih)

theorem insertSorted_filter {α κ : Type} [DecidableEq κ] (cmp : α → α → Int) (k : α → κ)
    (h : κ) (hc : ∀ a b, ¬ cmp a b ≤ 0 → k a ≠ k b) (x : α) (l : List α) :
    (insertSorted cmp x l).filter (fun a => decide (k a = h)) =
      (x :: l).filter (fun a => decide (k a = h)) := by
  induction l with
  | nil => rfl
  | cons y ys ih =>
    simp only [insertSorted]
    split
    · rfl
    · rename_i hxy
      have hne := hc x y hxy
      rw [List.filter_cons, ih]
      by_cases hx : k x = h
      · have hy : ¬ k y = h := fun hy => hne (hx.trans hy.symm)
        simp [List.filter_cons, hx, hy]
      · simp [List.filter_cons, hx]

theorem jsSort_filter {α κ : Type} [DecidableEq κ] (cmp : α → α → Int) (k : α → κ) (h : κ)
    (hc : ∀ a b, ¬ cmp a b ≤ 0 → k a ≠ k b) (l : List α) :
    (jsSort cmp l).filter (fun a => decide (k a = h)) =
      l.filter (fun a => decide (k a = h)) := by
  induction l with
  | nil => rfl
  | cons x xs ih =>
    show (insertSorted cmp x (jsSort cmp xs)).filter _ = _
    rw [insertSorted_filter cmp k h hc, List.filter_cons, ih, List.filter_cons]

theorem insertSorted_pairwise {α : Type} (cmp : α → α → Int) (r : α → α → Prop)
    (hc : ∀ a b, cmp a b ≤ 0 ↔ r a b) (htrans : ∀ a b c, r a b → r b c → r a c)
    (htotal : ∀ a b, r a b ∨ r b a) (x : α) (l : List α) (hl : l.Pairwise r) :
    (insertSorted cmp x l).Pairwise r := by
  induction l with
  | nil => simp [insertSorted]
  | cons y ys ih =>
    simp only [insertSorted]
    have hy := List.pairwise_cons.mp hl
    split
    · rename_i hxy
      have hyx : r x y := (hc x y).mp hxy
      refine List.pairwise_cons.mpr ⟨?_, hl⟩
      intro b hb
      rcases List.mem_cons.mp hb with rfl | hb
      · exact hyx
      · exact htrans _ _ _ hyx (hy.1 b hb)
    · rename_i hxy
      have hxy2 : r y x := by
        rcases htotal x y with h | h
        · exact absurd ((hc x y).mpr h) hxy
        · exact h
      refine List.pairwise_cons.mpr ⟨?_, ih hy.2⟩
      intro b hb
      have hb2 : b ∈ x :: ys := (insertSorted_perm cmp x ys).subset hb
      rcases List.mem_cons.mp hb2 with rfl | hb2
      · exact hxy2
      · exact hy.1 b hb2

theorem jsSort_pairwise {α : Type} (cmp : α → α → Int) (r : α → α → Prop)
    (hc : ∀ a b, cmp a b ≤ 0 ↔ r a b) (htrans : ∀ a b c, r a b → r b c → r a c)
    (htotal : ∀ a b, r a b ∨ r b a) (l : List α) :
    (jsSort cmp l).Pairwise r := by
  induction l with
  | nil => exact List.Pairwise.nil
  | cons x xs ih => exact insertSorted_pairwise cmp r hc htrans htotal x _ ih

theorem jsSlice_nonneg {α : Type} (l : List α) (s e : Nat) :
    jsSlice l (s : Int) (e : Int) = (l.take e).drop s := by
  simp only [jsSlice]
  have h1 : ¬ ((s : Int) < 0) := by omega
  have h2 : ¬ ((e : Int) < 0) := by omega
  simp only [h1, h2, if_false]
  apply List.ext_getElem?
  intro j
  simp only [List.getElem?_take, List.getElem?_drop]
  by_cases hj : s + j < e
  · have : j < (min (e : Int) (l.length : Int) - min (s : Int) (l.length : Int)).toNat ∨
        l.length ≤ s + j := by omega
    rcases this with h | h
    · have hs : (min (s : Int) (l.length : Int)).toNat = s := by omega
      simp [h, hj, hs]
    · have hs : l.length ≤ (min (s : Int) (l.length : Int)).toNat + j := by omega
      simp only [hj, if_true]
      rw [List.getElem?_eq_none h]
      split
      · exact List.getElem?_eq_none hs
      · rfl
  · have : ¬ j < (min (e : Int) (l.length : Int) - min (s : Int) (l.length : Int)).toNat := by
      omega
    simp [this, hj]

theorem mem_plusRun (p : Char → Bool) (s m rest : Str) :
    (m, rest) ∈ plusRun p s ↔ s = m ++ rest ∧ m ≠ [] ∧ ∀ ch ∈ m, p ch = true := by
  induction s generalizing m with
  | nil =>
    simp only [plusRun, List.not_mem_nil, false_iff]
    rintro ⟨h, hm, _⟩
    cases m with
    | nil => exact hm rfl
    | cons a m => cases h
  | cons c s ih =>
    simp only [plusRun]
    by_cases hp : p c = true
    · simp only [hp, if_true, List.mem_append, List.mem_map, List.mem_singleton, Prod.mk.injEq,
        Prod.exists]
      constructor
      · rintro (⟨m1, r1, hmem, rfl, rfl⟩ | ⟨rfl, rfl⟩)
        · rcases (ih m1).mp hmem with ⟨rfl, _, hall⟩
          refine ⟨rfl, by simp, ?_⟩
          intro ch hch
          rcases List.mem_cons.mp hch with rfl | hch
          · exact hp
          · exact hall ch hch
        · exact ⟨rfl, by simp, by simpa using hp⟩
      · rintro ⟨h, hm, hall⟩
        cases m with
        | nil => exact absurd rfl hm
        | cons a m =>
          simp only [List.cons_append, List.cons.injEq] at h
          rcases h with ⟨rfl, rfl⟩
          cases m with
          | nil => right; simp
          | cons b m =>
            left
            refine ⟨b :: m, rest, (ih (b :: m)).mpr ⟨rfl, by simp, ?_⟩, rfl, rfl⟩
            intro ch hch
            exact hall ch (List.mem_cons_of_mem _ hch)
    · have hp2 : p c = false := by simpa using hp
      simp only [hp2, Bool.false_eq_true, if_false, List.not_mem_nil, false_iff]
      rintro ⟨h, hm, hall⟩
      cases m with
      | nil => exact hm rfl
      | cons a m =>
        simp only [List.cons_append, List.cons.injEq] at h
        rcases h with ⟨rfl, _⟩
        exact hp (hall _ (List.mem_cons_self _ _))

/-- The matcher lists exactly the matches of the declarative reading. -/
theorem mem_run (r : Re) : ∀ (s : Str) (c : Caps) (m rest : Str) (c1 : Caps),
    (m, rest, c1) ∈ r.run s c ↔ s = m ++ rest ∧ r.Derives m c c1 := by
  induction r with
  | eps =>
    intro s c m rest c1
    simp only [Re.run, Re.Derives, List.mem_singleton, Prod.mk.injEq]
    constructor
    · rintro ⟨rfl, rfl, rfl⟩; exact ⟨rfl, rfl, rfl⟩
    · rintro ⟨h, rfl, rfl⟩; exact ⟨rfl, by simpa using h.symm, rfl⟩
  | chr p =>
    intro s c m rest c1
    cases s with
    | nil =>
      simp only [Re.run, Re.Derives, List.not_mem_nil, false_iff]
      rintro ⟨h, ch, _, rfl, _⟩
      cases h
    | cons a s =>
      simp only [Re.run, Re.Derives]
      by_cases hp : p a = true
      · simp only [hp, if_true, List.mem_singleton, Prod.mk.injEq]
        constructor
        · rintro ⟨rfl, rfl, rfl⟩
          exact ⟨rfl, a, hp, rfl, rfl⟩
        · rintro ⟨h, ch, _, rfl, rfl⟩
          simp only [List.singleton_append, List.cons.injEq] at h
          rcases h with ⟨rfl, rfl⟩
          exact ⟨rfl, rfl, rfl⟩
      · have hp2 : p a = false := by simpa using hp
        simp only [hp2, Bool.false_eq_true, if_false, List.not_mem_nil, false_iff]
        rintro ⟨h, ch, hch, rfl, _⟩
        simp only [List.singleton_append, List.cons.injEq] at h
        rcases h with ⟨rfl, _⟩
        exact hp hch
  | seq a b iha ihb =>
    intro s c m rest c1
    simp only [Re.run, Re.Derives, List.mem_flatMap, List.mem_map, Prod.mk.injEq, Prod.exists]
    constructor
    · rintro ⟨m1, r1, c2, h1, m2, r2, c3, h2, rfl, rfl, rfl⟩
      rcases (iha _ _ _ _ _).mp h1 with ⟨rfl, d1⟩
      rcases (ihb _ _ _ _ _).mp h2 with ⟨hr, d2⟩
      subst hr
      exact ⟨by simp, m1, m2, c2, rfl, d1, d2⟩
    · rintro ⟨rfl, m1, m2, c2, rfl, d1, d2⟩
      exact ⟨m1, m2 ++ rest, c2, (iha _ _ _ _ _).mpr ⟨by simp, d1⟩, m2, rest, c1,
        (ihb _ _ _ _ _).mpr ⟨rfl, d2⟩, rfl, rfl, rfl⟩
  | alt a b iha ihb =>
    intro s c m rest c1
    simp only [Re.run, Re.Derives, List.mem_append, iha, ihb]
    tauto
  | opt a iha =>
    intro s c m rest c1
    simp only [Re.run, Re.Derives, List.mem_append, iha, List.mem_singleton, Prod.mk.injEq]
    constructor
    · rintro (h | ⟨rfl, rfl, rfl⟩)
      · exact ⟨h.1, Or.inl h.2⟩
      · exact ⟨rfl, Or.inr ⟨rfl, rfl⟩⟩
    · rintro ⟨h, (d | ⟨rfl, rfl⟩)⟩
      · exact Or.inl ⟨h, d⟩
      · exact Or.inr ⟨rfl, by simpa using h.symm, rfl⟩
  | plus p =>
    intro s c m rest c1
    simp only [Re.run, Re.Derives, List.mem_map, Prod.mk.injEq, Prod.exists]
    constructor
    · rintro ⟨m1, r1, h, rfl, rfl, rfl⟩
      rcases (mem_plusRun p s m1 r1).mp h with ⟨h1, h2, h3⟩
      exact ⟨h1, h2, h3, rfl⟩
    · rintro ⟨h1, h2, h3, rfl⟩
      exact ⟨m, rest, (mem_plusRun p s m rest).mpr ⟨h1, h2, h3⟩, rfl, rfl, rfl⟩
  | group i a iha =>
    intro s c m rest c1
    simp only [Re.run, Re.Derives, List.mem_map, Prod.mk.injEq, Prod.exists]
    constructor
    · rintro ⟨m1, r1, c2, h, rfl, rfl, rfl⟩
      rcases (iha _ _ _ _ _).mp h with ⟨h1, d⟩
      exact ⟨h1, c2, d, rfl⟩
    · rintro ⟨h1, c2, d, rfl⟩
      exact ⟨m, rest, c2, (iha _ _ _ _ _).mpr ⟨h1, d⟩, rfl, rfl, rfl⟩

theorem matchHere_some {r : Re} {pre s : Str} {m : Match} (h : r.matchHere pre s = some m) :
    m.before = pre ∧ s = m.matched ++ m.after ∧ r.Derives m.matched [] m.caps := by
  simp only [Re.matchHere, Option.map_eq_some'] at h
  rcases h with ⟨x, hx, rfl⟩
  have hmem : (x.1, x.2.1, x.2.2) ∈ r.run s [] := List.mem_of_mem_head? hx
  exact ⟨rfl, (mem_run r _ _ _ _ _).mp hmem⟩

theorem matchHere_none {r : Re} {pre s : Str} :
    r.matchHere pre s = none ↔ r.run s [] = [] := by
  simp [Re.matchHere]

theorem search_some (r : Re) : ∀ (s pre : Str) (m : Match), r.search pre s = some m →
    pre.reverse ++ s = m.before ++ m.matched ++ m.after ∧ r.Derives m.matched [] m.caps := by
  intro s
  induction s with
  | nil =>
    intro pre m h
    simp only [Re.search] at h
    rcases matchHere_some h with ⟨h1, h2, h3⟩
    refine ⟨?_, h3⟩
    rw [h1, List.append_assoc, ← h2]
  | cons c s ih =>
    intro pre m h
    simp only [Re.search] at h
    split at h
    · rename_i m1 hm1
      cases h
      rcases matchHere_some hm1 with ⟨h1, h2, h3⟩
      refine ⟨?_, h3⟩
      rw [h1, List.append_assoc, ← h2]
    · rcases ih (c :: pre) m h with ⟨h1, h2⟩
      refine ⟨?_, h2⟩
      rw [← h1]
      simp

theorem search_none (r : Re) : ∀ (s pre : Str), r.search pre s = none →
    ∀ p suf : Str, s = p ++ suf → r.run suf [] = [] := by
  intro s
  induction s with
  | nil =>
    intro pre h p suf hs
    simp only [Re.search] at h
    have hp : p = [] ∧ suf = [] := by simpa using hs.symm
    rw [hp.2]
    exact matchHere_none.mp h
  | cons c s ih =>
    intro pre h p suf hs
    simp only [Re.search] at h
    split at h
    · cases h
    · rename_i hnone
      cases p with
      | nil =>
        simp only [List.nil_append] at hs
        rw [← hs]
        exact matchHere_none.mp hnone
      | cons a p =>
        simp only [List.cons_append, List.cons.injEq] at hs
        exact ih (c :: pre) h p suf hs.2

/-- A match reported by `exec` splits the input around a text that the
expression derives. -/
theorem exec_some {r : Re} {s : Str} {m : Match} (h : r.exec s = some m) :
    s = m.before ++ m.matched ++ m.after ∧ r.Derives m.matched [] m.caps := by
  have := search_some r s [] m h
  simpa using this

/-- When some part of the input is derived by the expression, `exec` finds a match. -/
theorem exec_isSome {r : Re} {pre mid post : Str} {c : Caps} (h : r.Derives mid [] c) :
    (r.exec (pre ++ mid ++ post)).isSome = true := by
  cases hex : r.exec (pre ++ mid ++ post) with
  | some m => rfl
  | none =>
    have h1 := search_none r _ [] hex pre (mid ++ post) (by simp)
    have h2 : (mid, post, c) ∈ r.run (mid ++ post) [] := (mem_run r _ _ _ _ _).mpr ⟨rfl, h⟩
    rw [h1] at h2
    cases h2

theorem derives_lit (ch : Char) (m : Str) (c c1 : Caps) :
    (Re.lit ch).Derives m c c1 ↔ m = [ch] ∧ c1 = c := by
  simp only [Re.lit, Re.Derives, beq_iff_eq]
  constructor
  · rintro ⟨d, rfl, rfl, rfl⟩; exact ⟨rfl, rfl⟩
  · rintro ⟨rfl, rfl⟩; exact ⟨ch, rfl, rfl, rfl⟩

theorem derives_seqs_cons (a b : Re) (l : List Re) (m : Str) (c c1 : Caps) :
    (Re.seqs (a :: b :: l)).Derives m c c1 ↔
      ∃ m1 m2 c2, m = m1 ++ m2 ∧ a.Derives m1 c c2 ∧ (Re.seqs (b :: l)).Derives m2 c2 c1 :=
  Iff.rfl

theorem derives_seq (a b : Re) (m : Str) (c c1 : Caps) :
    (Re.seq a b).Derives m c c1 ↔
      ∃ m1 m2 c2, m = m1 ++ m2 ∧ a.Derives m1 c c2 ∧ b.Derives m2 c2 c1 :=
  Iff.rfl

theorem derives_lits (s : Str) : ∀ (m : Str) (c c1 : Caps),
    (Re.lits s).Derives m c c1 ↔ m = s ∧ c1 = c := by
  induction s with
  | nil => intro m c c1; simp [Re.lits, Re.seqs, Re.Derives]
  | cons a s ih =>
    intro m c c1
    cases s with
    | nil => simpa [Re.lits, Re.seqs] using derives_lit a m c c1
    | cons b s =>
      have h : Re.lits (a :: b :: s) = Re.seq (Re.lit a) (Re.lits (b :: s)) := rfl
      rw [h, derives_seq]
      constructor
      · rintro ⟨m1, m2, c2, rfl, h1, h2⟩
        rcases (derives_lit _ _ _ _).mp h1 with ⟨rfl, rfl⟩
        rcases (ih _ _ _).mp h2 with ⟨rfl, rfl⟩
        exact ⟨rfl, rfl⟩
      · rintro ⟨rfl, rfl⟩
        exact ⟨[a], b :: s, c1, rfl, (derives_lit _ _ _ _).mpr ⟨rfl, rfl⟩,
          (ih _ _ _).mpr ⟨rfl, rfl⟩⟩

theorem derives_group_plus (i : Nat) (p : Char → Bool) (m : Str) (c c1 : Caps) :
    (Re.group i (Re.plus p)).Derives m c c1 ↔ Run p m ∧ c1 = (i, m) :: c := by
  simp only [Re.Derives, Run]
  constructor
  · rintro ⟨c2, ⟨h1, h2, rfl⟩, rfl⟩; exact ⟨⟨h1, h2⟩, rfl⟩
  · rintro ⟨⟨h1, h2⟩, rfl⟩; exact ⟨c, ⟨h1, h2, rfl⟩, rfl⟩

theorem derives_plus (p : Char → Bool) (m : Str) (c c1 : Caps) :
    (Re.plus p).Derives m c c1 ↔ Run p m ∧ c1 = c := by
  simp only [Re.Derives, Run, and_assoc]

theorem derives_space (m : Str) (c c1 : Caps) :
    (Re.chr isSpace).Derives m c c1 ↔ ∃ ch, isSpace ch = true ∧ m = [ch] ∧ c1 = c :=
  Iff.rfl

/-- The username token `(§[0-9a-fk-or]+[\w_]+)`. -/
theorem derives_username (m : Str) (c c1 : Caps) :
    (Re.group 2 (Re.seqs [Re.lit '§', Re.plus isColorC, Re.plus isWordC])).Derives m c c1 ↔
      ∃ col name, Run isColorC col ∧ Run isWordC name ∧ m = '§' :: col ++ name ∧
        c1 = (2, m) :: c := by
  have h : ∀ m c c2, (Re.seqs [Re.lit '§', Re.plus isColorC, Re.plus isWordC]).Derives m c c2 ↔
      ∃ col name, Run isColorC col ∧ Run isWordC name ∧ m = '§' :: col ++ name ∧ c2 = c := by
    intro m c c2
    rw [derives_seqs_cons]
    have h2 : Re.seqs [Re.plus isColorC, Re.plus isWordC]
        = Re.seq (Re.plus isColorC) (Re.plus isWordC) := rfl
    rw [h2]
    constructor
    · rintro ⟨m1, m2, c3, rfl, h1, h3⟩
      rcases (derives_lit _ _ _ _).mp h1 with ⟨rfl, rfl⟩
      rcases (derives_seq _ _ _ _ _).mp h3 with ⟨m3, m4, c4, rfl, h4, h5⟩
      rcases (derives_plus _ _ _ _).mp h4 with ⟨r1, rfl⟩
      rcases (derives_plus _ _ _ _).mp h5 with ⟨r2, rfl⟩
      exact ⟨m3, m4, r1, r2, rfl, rfl⟩
    · rintro ⟨col, name, r1, r2, rfl, rfl⟩
      exact ⟨['§'], col ++ name, c2, rfl, (derives_lit _ _ _ _).mpr ⟨rfl, rfl⟩,
        (derives_seq _ _ _ _ _).mpr ⟨col, name, c2, rfl,
          (derives_plus _ _ _ _).mpr ⟨r1, rfl⟩, (derives_plus _ _ _ _).mpr ⟨r2, rfl⟩⟩⟩
  show (∃ c2, _ ∧ c1 = (2, m) :: c2) ↔ _
  constructor
  · rintro ⟨c2, h1, rfl⟩
    rcases (h _ _ _).mp h1 with ⟨col, name, r1, r2, rfl, rfl⟩
    exact ⟨col, name, r1, r2, rfl, rfl⟩
  · rintro ⟨col, name, r1, r2, rfl, rfl⟩
    exact ⟨c, (h _ _ _).mpr ⟨col, name, r1, r2, rfl, rfl⟩, rfl⟩

/-- The optional guild segment `(?:(§[0-9a-fk-or]+)\[([^\]]+)\]\s)?`. -/
theorem derives_guild (m : Str) (c c1 : Caps) :
    (Re.opt (Re.seqs [
      Re.group 3 (Re.seqs [Re.lit '§', Re.plus isColorC]),
      Re.lit '[',
      Re.group 4 (Re.plus isNotCloseC),
      Re.lit ']',
      Re.chr isSpace])).Derives m c c1 ↔
      (m = [] ∧ c1 = c) ∨
      ∃ gc gn sp, Run isColorC gc ∧ Run isNotCloseC gn ∧ isSpace sp = true ∧
        m = '§' :: gc ++ '[' :: gn ++ [']', sp] ∧ c1 = (4, gn) :: (3, '§' :: gc) :: c := by
  have h3 : ∀ m c c2, (Re.group 3 (Re.seqs [Re.lit '§', Re.plus isColorC])).Derives m c c2 ↔
      ∃ gc, Run isColorC gc ∧ m = '§' :: gc ∧ c2 = (3, m) :: c := by
    intro m c c2
    show (∃ c3, (Re.seq (Re.lit '§') (Re.plus isColorC)).Derives m c c3 ∧ c2 = (3, m) :: c3) ↔ _
    constructor
    · rintro ⟨c3, h, rfl⟩
      rcases (derives_seq _ _ _ _ _).mp h with ⟨m1, m2, c4, rfl, h1, h2⟩
      rcases (derives_lit _ _ _ _).mp h1 with ⟨rfl, rfl⟩
      rcases (derives_plus _ _ _ _).mp h2 with ⟨r, rfl⟩
      exact ⟨m2, r, rfl, rfl⟩
    · rintro ⟨gc, r, rfl, rfl⟩
      exact ⟨c, (derives_seq _ _ _ _ _).mpr ⟨['§'], gc, c, rfl,
        (derives_lit _ _ _ _).mpr ⟨rfl, rfl⟩, (derives_plus _ _ _ _).mpr ⟨r, rfl⟩⟩, rfl⟩
  show (Re.Derives _ m c c1 ∨ (m = [] ∧ c1 = c)) ↔ _
  rw [or_comm]
  apply or_congr Iff.rfl
  rw [derives_seqs_cons]
  constructor
  · rintro ⟨m1, r1, c2, rfl, h1, h⟩
    rcases (h3 _ _ _).mp h1 with ⟨gc, rg, rfl, rfl⟩
    rcases (derives_seqs_cons _ _ _ _ _ _).mp h with ⟨m2, r2, c3, rfl, h2, h⟩
    rcases (derives_lit _ _ _ _).mp h2 with ⟨rfl, rfl⟩
    rcases (derives_seqs_cons _ _ _ _ _ _).mp h with ⟨m3, r3, c4, rfl, h4, h⟩
    rcases (derives_group_plus _ _ _ _ _).mp h4 with ⟨rn, rfl⟩
    have h5 : Re.seqs [Re.lit ']', Re.chr isSpace] = Re.seq (Re.lit ']') (Re.chr isSpace) := rfl
    rw [h5] at h
    rcases (derives_seq _ _ _ _ _).mp h with ⟨m4, r4, c5, rfl, h6, h7⟩
    rcases (derives_lit _ _ _ _).mp h6 with ⟨rfl, rfl⟩
    rcases (derives_space _ _ _).mp h7 with ⟨sp, hsp, rfl, rfl⟩
    exact ⟨gc, m3, sp, rg, rn, hsp, by simp, rfl⟩
  · rintro ⟨gc, gn, sp, rg, rn, hsp, rfl, rfl⟩
    refine ⟨'§' :: gc, '[' :: gn ++ [']', sp], (3, '§' :: gc) :: c, by simp,
      (h3 _ _ _).mpr ⟨gc, rg, rfl, rfl⟩, ?_⟩
    refine (derives_seqs_cons _ _ _ _ _ _).mpr ⟨['['], gn ++ [']', sp], _, rfl,
      (derives_lit _ _ _ _).mpr ⟨rfl, rfl⟩, ?_⟩
    refine (derives_seqs_cons _ _ _ _ _ _).mpr ⟨gn, [']', sp], _, rfl,
      (derives_group_plus _ _ _ _ _).mpr ⟨rn, rfl⟩, ?_⟩
    exact (derives_seq _ _ _ _ _).mpr ⟨[']'], [sp], _, rfl,
      (derives_lit _ _ _ _).mpr ⟨rfl, rfl⟩, (derives_space _ _ _).mpr ⟨sp, hsp, rfl, rfl⟩⟩

/-- The unit word `(Hours|Days)`. -/
theorem derives_unit (m : Str) (c c1 : Caps) :
    (Re.group 6 (Re.alt (Re.lits "Hours".toList) (Re.lits "Days".toList))).Derives m c c1 ↔
      (m = "Hours".toList ∨ m = "Days".toList) ∧ c1 = (6, m) :: c := by
  show (∃ c2, ((Re.lits "Hours".toList).Derives m c c2 ∨ (Re.lits "Days".toList).Derives m c c2)
    ∧ c1 = (6, m) :: c2) ↔ _
  simp only [derives_lits]
  constructor
  · rintro ⟨c2, (⟨h, rfl⟩ | ⟨h, rfl⟩), rfl⟩
    · exact ⟨Or.inl h, rfl⟩
    · exact ⟨Or.inr h, rfl⟩
  · rintro ⟨(h | h), rfl⟩
    · exact ⟨c, Or.inl ⟨h, rfl⟩, rfl⟩
    · exact ⟨c, Or.inr ⟨h, rfl⟩, rfl⟩

/-- The expression `topRegex` derives exactly the texts of the well-formed
entries, and records their parts as captures. -/
theorem derives_topRegex (m : Str) (c : Caps) :
    topRegex.Derives m [] c ↔ ∃ e : Entry, e.Ok ∧ m = e.text ∧ c = e.caps := by
  unfold topRegex
  constructor
  · intro h
    rcases (derives_seqs_cons _ _ _ _ _ _).mp h with ⟨m0, r0, c0, rfl, h0, g0⟩
    clear h
    rcases (derives_lits _ _ _ _).mp h0 with ⟨rfl, rfl⟩
    rcases (derives_seqs_cons _ _ _ _ _ _).mp g0 with ⟨rank, r1, c1, rfl, h1, g1⟩
    clear g0
    rcases (derives_group_plus _ _ _ _ _).mp h1 with ⟨hrank, rfl⟩
    rcases (derives_seqs_cons _ _ _ _ _ _).mp g1 with ⟨m2, r2, c2, rfl, h2, g2⟩
    clear g1
    rcases (derives_space _ _ _).mp h2 with ⟨sep1, hsep1, rfl, rfl⟩
    rcases (derives_seqs_cons _ _ _ _ _ _).mp g2 with ⟨m3, r3, c3, rfl, h3, g3⟩
    clear g2
    rcases (derives_username _ _ _).mp h3 with ⟨col, name, hcol, hname, rfl, rfl⟩
    rcases (derives_seqs_cons _ _ _ _ _ _).mp g3 with ⟨m4, r4, c4, rfl, h4, g4⟩
    clear g3
    rcases (derives_space _ _ _).mp h4 with ⟨sep2, hsep2, rfl, rfl⟩
    rcases (derives_seqs_cons _ _ _ _ _ _).mp g4 with ⟨m5, r5, c5, rfl, h5, g5⟩
    clear g4
    rcases (derives_seqs_cons _ _ _ _ _ _).mp g5 with ⟨m6, r6, c6, rfl, h6, g6⟩
    clear g5
    rcases (derives_lits _ _ _ _).mp h6 with ⟨rfl, rfl⟩
    rcases (derives_seqs_cons _ _ _ _ _ _).mp g6 with ⟨amount, r7, c7, rfl, h7, g7⟩
    clear g6
    rcases (derives_group_plus _ _ _ _ _).mp h7 with ⟨hamount, rfl⟩
    rcases (derives_seqs_cons _ _ _ _ _ _).mp g7 with ⟨m8, r8, c8, rfl, h8, g8⟩
    clear g7
    rcases (derives_space _ _ _).mp h8 with ⟨sep3, hsep3, rfl, rfl⟩
    rcases (derives_seqs_cons _ _ _ _ _ _).mp g8 with ⟨unit, r9, c9, rfl, h9, g9⟩
    clear g8
    rcases (derives_unit _ _ _).mp h9 with ⟨hunit, rfl⟩
    have hl : Re.seqs [Re.lit ')'] = Re.lit ')' := rfl
    rw [hl] at g9
    rcases (derives_lit _ _ _ _).mp g9 with ⟨rfl, rfl⟩
    rcases (derives_guild _ _ _).mp h5 with ⟨rfl, rfl⟩ | ⟨gc, gn, sp, hgc, hgn, hsp, rfl, rfl⟩
    · exact ⟨⟨rank, sep1, col, name, sep2, none, amount, sep3, unit⟩,
        ⟨hrank, hsep1, hcol, hname, hsep2, trivial, hamount, hsep3, hunit⟩,
        by simp [Entry.text, guildText], by simp [Entry.caps, Entry.username]⟩
    · exact ⟨⟨rank, sep1, col, name, sep2, some (gc, gn, sp), amount, sep3, unit⟩,
        ⟨hrank, hsep1, hcol, hname, hsep2, ⟨hgc, hgn, hsp⟩, hamount, hsep3, hunit⟩,
        by simp [Entry.text, guildText], by simp [Entry.caps, Entry.username]⟩
  · rintro ⟨e, hok, rfl, rfl⟩
    obtain ⟨rank, sep1, col, name, sep2, guild, amount, sep3, unit⟩ := e
    obtain ⟨hrank, hsep1, hcol, hname, hsep2, hguild, hamount, hsep3, hunit⟩ := hok
    simp only at hrank hsep1 hcol hname hsep2 hguild hamount hsep3 hunit
    have hg : (Re.opt (Re.seqs [
        Re.group 3 (Re.seqs [Re.lit '§', Re.plus isColorC]),
        Re.lit '[',
        Re.group 4 (Re.plus isNotCloseC),
        Re.lit ']',
        Re.chr isSpace])).Derives (guildText guild)
          [(2, '§' :: col ++ name), (1, rank)]
          ((match guild with
            | none => []
            | some (gc, gn, _) => [(4, gn), (3, '§' :: gc)]) ++
            [(2, '§' :: col ++ name), (1, rank)]) := by
      apply (derives_guild _ _ _).mpr
      cases guild with
      | none => left; exact ⟨rfl, rfl⟩
      | some x =>
        obtain ⟨gc, gn, sp⟩ := x
        obtain ⟨h1, h2, h3⟩ := hguild
        right
        exact ⟨gc, gn, sp, h1, h2, h3, rfl, rfl⟩
    have htext : (⟨rank, sep1, col, name, sep2, guild, amount, sep3, unit⟩ : Entry).text
        = "§r§e#".toList ++ (rank ++ ([sep1] ++ (('§' :: col ++ name) ++ ([sep2] ++
            (guildText guild ++ ("§e(".toList ++ (amount ++ ([sep3] ++
              (unit ++ ")".toList))))))))) := by
      simp [Entry.text]
    rw [htext]
    refine (derives_seqs_cons _ _ _ _ _ _).mpr ⟨"§r§e#".toList, _, [], rfl,
      (derives_lits _ _ _ _).mpr ⟨rfl, rfl⟩, ?_⟩
    refine (derives_seqs_cons _ _ _ _ _ _).mpr ⟨rank, _, _, rfl,
      (derives_group_plus _ _ _ _ _).mpr ⟨hrank, rfl⟩, ?_⟩
    refine (derives_seqs_cons _ _ _ _ _ _).mpr ⟨[sep1], _, _, rfl,
      (derives_space _ _ _).mpr ⟨sep1, hsep1, rfl, rfl⟩, ?_⟩
    refine (derives_seqs_cons _ _ _ _ _ _).mpr ⟨'§' :: col ++ name, _, _, rfl,
      (derives_username _ _ _).mpr ⟨col, name, hcol, hname, rfl, rfl⟩, ?_⟩
    refine (derives_seqs_cons _ _ _ _ _ _).mpr ⟨[sep2], _, _, rfl,
      (derives_space _ _ _).mpr ⟨sep2, hsep2, rfl, rfl⟩, ?_⟩
    refine (derives_seqs_cons _ _ _ _ _ _).mpr ⟨guildText guild, _, _, rfl, hg, ?_⟩
    refine (derives_seqs_cons _ _ _ _ _ _).mpr ⟨"§e(".toList, _, _, rfl,
      (derives_lits _ _ _ _).mpr ⟨rfl, rfl⟩, ?_⟩
    refine (derives_seqs_cons _ _ _ _ _ _).mpr ⟨amount, _, _, rfl,
      (derives_group_plus _ _ _ _ _).mpr ⟨hamount, rfl⟩, ?_⟩
    refine (derives_seqs_cons _ _ _ _ _ _).mpr ⟨[sep3], _, _, rfl,
      (derives_space _ _ _).mpr ⟨sep3, hsep3, rfl, rfl⟩, ?_⟩
    refine (derives_seqs_cons _ _ _ _ _ _).mpr ⟨unit, ")".toList, _, rfl,
      (derives_unit _ _ _).mpr ⟨hunit, rfl⟩, ?_⟩
    have hl : Re.seqs [Re.lit ')'] = Re.lit ')' := rfl
    rw [hl]
    refine (derives_lit _ _ _ _).mpr ⟨rfl, ?_⟩
    simp [Entry.caps, Entry.username]

theorem isDigit_iff (c : Char) : c.isDigit = true ↔ 48 ≤ c.toNat ∧ c.toNat ≤ 57 := by
  simp only [Char.isDigit, Bool.and_eq_true, decide_eq_true_eq, Char.toNat, ge_iff_le,
    UInt32.le_def]
  rfl

theorem decimalValue_foldl (ds : Str) : ∀ acc : Nat,
    ds.foldl (fun acc c => 10 * acc + digitVal c) acc
      = acc * 10 ^ ds.length + integerValue ds := by
  induction ds with
  | nil => intro acc; simp [integerValue]
  | cons c ds ih =>
    intro acc
    rw [List.foldl_cons, ih]
    simp only [List.length_cons, integerValue, digitVal]
    ring

/-- The conversion used by `parseInt` reads the integer that the digits denote. -/
theorem decimalValue_eq_integerValue (ds : Str) : decimalValue ds = integerValue ds := by
  simp [decimalValue, decimalValue_foldl]

theorem bitLengthAux_le (f : Nat) : ∀ (n k : Nat), n < 2 ^ k → bitLengthAux f n ≤ k := by
  induction f with
  | zero => intro n k _; simp [bitLengthAux]
  | succ f ih =>
    intro n k h
    simp only [bitLengthAux]
    split
    · omega
    · rename_i hn
      cases k with
      | zero => simp at h; omega
      | succ k =>
        have : n / 2 < 2 ^ k := by
          rw [Nat.pow_succ] at h
          omega
        have := ih (n / 2) k this
        omega

/-- Below 2^53 every integer is a double. -/
theorem roundToDouble_small (n : Nat) (h : n < 2 ^ 53) : roundToDouble n = n := by
  have hb : bitLength n - 53 = 0 := by
    have := bitLengthAux_le n n 53 h
    unfold bitLength
    omega
  simp [roundToDouble, hb, Nat.mod_one]

theorem toDouble_small (n : Nat) (h : n < 2 ^ 53) : toDouble n = .fin n := by
  have h2 : bitLength n ≤ 1024 := le_trans (bitLengthAux_le n n 53 h) (by decide)
  simp only [toDouble, roundToDouble_small n h, h2, if_true]

theorem toDouble_cases (n : Nat) : (∃ v : Int, 0 ≤ v ∧ toDouble n = .fin v) ∨
    toDouble n = .inf false := by
  unfold toDouble
  split
  · exact Or.inl ⟨_, Int.natCast_nonneg _, rfl⟩
  · exact Or.inr rfl

theorem bitLengthAux_spec (f : Nat) : ∀ n : Nat, n ≤ f →
    (n ≠ 0 → 2 ^ (bitLengthAux f n - 1) ≤ n) ∧ n < 2 ^ bitLengthAux f n := by
  induction f with
  | zero =>
    intro n hn
    have : n = 0 := by omega
    subst this
    simp [bitLengthAux]
  | succ f ih =>
    intro n hn
    simp only [bitLengthAux]
    split
    · rename_i h0
      subst h0
      simp
    · rename_i h0
      have hle : n / 2 ≤ f := by omega
      obtain ⟨ih1, ih2⟩ := ih (n / 2) hle
      refine ⟨fun _ => ?_, ?_⟩
      · simp only [Nat.add_sub_cancel]
        by_cases hz : n / 2 = 0
        · have hb : bitLengthAux f (n / 2) = 0 := by
            rw [hz]
            cases f <;> simp [bitLengthAux]
          rw [hb]
          simp
          omega
        · have h1 := ih1 hz
          have hpos : 1 ≤ bitLengthAux f (n / 2) := by
            by_contra hc
            have : bitLengthAux f (n / 2) = 0 := by omega
            rw [this] at ih2
            simp at ih2
            exact hz ih2
          have : 2 ^ bitLengthAux f (n / 2) = 2 * 2 ^ (bitLengthAux f (n / 2) - 1) := by
            rw [← Nat.pow_succ']
            congr 1
            omega
          omega
      · rw [Nat.pow_succ]
        omega

/-- The binary digits of a positive `n`: `2^(bitLength n - 1) ≤ n < 2^bitLength n`. -/
theorem bitLength_spec (n : Nat) :
    (n ≠ 0 → 2 ^ (bitLength n - 1) ≤ n) ∧ n < 2 ^ bitLength n :=
  bitLengthAux_spec n n (Nat.le_refl n)

/-- Rounding never takes a number from 2^53 on below 2^53. -/
theorem roundToDouble_large (n : Nat) (h : 2 ^ 53 ≤ n) : 2 ^ 53 ≤ roundToDouble n := by
  have hn0 : n ≠ 0 := by
    intro h0
    subst h0
    simp at h
  obtain ⟨hlo, hhi⟩ := bitLength_spec n
  have hlo := hlo hn0
  have hb : 54 ≤ bitLength n := by
    by_contra hc
    have h1 : bitLength n ≤ 53 := by omega
    have h2 : 2 ^ bitLength n ≤ 2 ^ 53 := Nat.pow_le_pow_right (by decide) h1
    omega
  obtain ⟨k, hk⟩ : ∃ k, bitLength n = k + 54 := ⟨bitLength n - 54, by omega⟩
  have hshift : bitLength n - 53 = k + 1 := by omega
  have hq : 2 ^ 52 * 2 ^ (k + 1) ≤ n := by
    have : bitLength n - 1 = 52 + (k + 1) := by omega
    rw [this, Nat.pow_add] at hlo
    exact hlo
  have hqq : 2 ^ 52 ≤ n / 2 ^ (k + 1) :=
    (Nat.le_div_iff_mul_le (Nat.pos_pow_of_pos _ (by decide))).mpr hq
  have h2k : 2 ≤ 2 ^ (k + 1) := by
    rw [Nat.pow_succ]
    have : 1 ≤ 2 ^ k := Nat.one_le_two_pow
    omega
  have hbase : 2 ^ 53 ≤ n / 2 ^ (k + 1) * 2 ^ (k + 1) := by
    have : (2 : Nat) ^ 53 = 2 ^ 52 * 2 := by decide
    rw [this]
    exact Nat.mul_le_mul hqq h2k
  unfold roundToDouble
  simp only [hshift]
  split
  · exact le_trans hbase (Nat.mul_le_mul_right _ (Nat.le_succ _))
  · exact hbase

/-- The number of a natural number: itself below 2^53, and otherwise an
integer from 2^53 on or `Infinity`. -/
theorem toDouble_range (n : Nat) :
    (n < 2 ^ 53 ∧ toDouble n = .fin n) ∨
    (2 ^ 53 ≤ n ∧ ((∃ r : Int, 2 ^ 53 ≤ r ∧ toDouble n = .fin r) ∨ toDouble n = .inf false)) := by
  by_cases h : n < 2 ^ 53
  · exact Or.inl ⟨h, toDouble_small n h⟩
  · have h2 : 2 ^ 53 ≤ n := by omega
    refine Or.inr ⟨h2, ?_⟩
    unfold toDouble
    split
    · refine Or.inl ⟨_, ?_, rfl⟩
      have := roundToDouble_large n h2
      exact_mod_cast this
    · exact Or.inr rfl

/-- The number of an integer `v`: `v` itself when its magnitude is below 2^53;
from 2^53 on, an integer from 2^53 on or `Infinity`; and symmetrically down
from -2^53. -/
theorem ofInt_range (v : Int) :
    (- 2 ^ 53 < v ∧ v < 2 ^ 53 ∧ JsNum.ofInt v = .fin v) ∨
    (2 ^ 53 ≤ v ∧ ((∃ r : Int, 2 ^ 53 ≤ r ∧ JsNum.ofInt v = .fin r) ∨
      JsNum.ofInt v = .inf false)) ∨
    (v ≤ - 2 ^ 53 ∧ ((∃ r : Int, r ≤ - 2 ^ 53 ∧ JsNum.ofInt v = .fin r) ∨
      JsNum.ofInt v = .inf true)) := by
  unfold JsNum.ofInt
  by_cases hv : v < 0
  · rw [if_pos hv]
    have habs : (v.natAbs : Int) = - v := by omega
    rcases toDouble_range v.natAbs with ⟨h1, h2⟩ | ⟨h1, ⟨r, hr, h2⟩ | h2⟩
    · refine Or.inl ⟨by omega, by omega, ?_⟩
      rw [h2]
      show JsNum.fin (- (v.natAbs : Int)) = _
      rw [habs]
      simp
    · refine Or.inr (Or.inr ⟨by omega, Or.inl ⟨- r, by omega, ?_⟩⟩)
      rw [h2]
      rfl
    · refine Or.inr (Or.inr ⟨by omega, Or.inr ?_⟩)
      rw [h2]
      rfl
  · rw [if_neg hv]
    have habs : (v.natAbs : Int) = v := by omega
    rcases toDouble_range v.natAbs with ⟨h1, h2⟩ | ⟨h1, ⟨r, hr, h2⟩ | h2⟩
    · refine Or.inl ⟨by omega, by omega, ?_⟩
      rw [h2, habs]
    · exact Or.inr (Or.inl ⟨by omega, Or.inl ⟨r, hr, h2⟩⟩)
    · exact Or.inr (Or.inl ⟨by omega, Or.inr h2⟩)

theorem ofInt_small (v : Int) (h1 : - 2 ^ 53 < v) (h2 : v < 2 ^ 53) :
    JsNum.ofInt v = .fin v := by
  rcases ofInt_range v with h | h | h
  · exact h.2.2
  · omega
  · omega

/-- The number of an integer is never `NaN`. -/
theorem ofInt_ne_nan (v : Int) : JsNum.ofInt v ≠ .nan := by
  rcases ofInt_range v with ⟨_, _, h⟩ | ⟨_, ⟨r, _, h⟩ | h⟩ | ⟨_, ⟨r, _, h⟩ | h⟩ <;>
    rw [h] <;> intro hc <;> cases hc

/-- Rounding keeps the sign: the number of `v` counts as at most zero in a
comparator exactly when `v ≤ 0`. -/
theorem sortValue_ofInt (v : Int) : (JsNum.ofInt v).sortValue ≤ 0 ↔ v ≤ 0 := by
  rcases ofInt_range v with ⟨_, _, h⟩ | ⟨h1, ⟨r, hr, h⟩ | h⟩ | ⟨h1, ⟨r, hr, h⟩ | h⟩ <;>
    rw [h] <;> simp only [JsNum.sortValue, Bool.false_eq_true, if_false, if_true] <;> omega

/-- The normalized hours of a record are never `NaN`. -/
theorem normalizedHours_ne_nan (p : Player) : normalizedHours p ≠ .nan := by
  unfold normalizedHours
  cases hh : p.hour with
  | fin v =>
    split
    · exact ofInt_ne_nan (v * 24)
    · intro hc; cases hc
  | inf =>
    split
    · intro hc; cases hc
    · intro hc; cases hc

/-- On numbers other than `NaN` the sign of `b - a` is at most zero exactly
when `b ≤ a`. -/
theorem sortValue_sub_le (a b : JsNum) (ha : a ≠ .nan) (hb : b ≠ .nan) :
    (b - a).sortValue ≤ 0 ↔ b ≤ a := by
  cases a with
  | nan => exact absurd rfl ha
  | fin x =>
    cases b with
    | nan => exact absurd rfl hb
    | fin y =>
      show (JsNum.ofInt (y + - x)).sortValue ≤ 0 ↔ y ≤ x
      rw [sortValue_ofInt]
      omega
    | inf t =>
      show (if t then (-1 : Int) else 1) ≤ 0 ↔ t = true
      cases t <;> simp
  | inf s =>
    cases b with
    | nan => exact absurd rfl hb
    | fin y =>
      show (if (!s) then (-1 : Int) else 1) ≤ 0 ↔ s = false
      cases s <;> simp
    | inf t =>
      show (if t = (!s) then JsNum.inf t else JsNum.nan).sortValue ≤ 0 ↔ (t = true ∨ s = false)
      cases s <;> cases t <;> simp [JsNum.sortValue]

theorem JsNum.le_trans_of_ne_nan (a b c : JsNum) (h1 : b ≤ a) (h2 : c ≤ b) : c ≤ a := by
  cases a <;> cases b <;> cases c <;>
    first
    | exact h1.elim
    | exact h2.elim
    | exact (show (_ : Int) ≤ _ from le_trans (show (_ : Int) ≤ _ from h2) (show (_ : Int) ≤ _ from h1))
    | (rename_i s t u
       revert h1 h2
       show JsNum.le _ _ → JsNum.le _ _ → JsNum.le _ _
       cases s <;> cases t <;> cases u <;> simp [JsNum.le])

theorem JsNum.le_total_of_ne_nan (a b : JsNum) (ha : a ≠ .nan) (hb : b ≠ .nan) :
    b ≤ a ∨ a ≤ b := by
  cases a with
  | nan => exact absurd rfl ha
  | fin x =>
    cases b with
    | nan => exact absurd rfl hb
    | fin y =>
      rcases le_total y x with h | h
      · exact Or.inl h
      · exact Or.inr h
    | inf t =>
      show JsNum.le _ _ ∨ JsNum.le _ _
      cases t <;> simp [JsNum.le]
  | inf s =>
    cases b with
    | nan => exact absurd rfl hb
    | fin y =>
      show JsNum.le _ _ ∨ JsNum.le _ _
      cases s <;> simp [JsNum.le]
    | inf t =>
      show JsNum.le _ _ ∨ JsNum.le _ _
      cases s <;> cases t <;> simp [JsNum.le]

/-- The comparator of the `time` sort puts `a` no later than `b` exactly when
the normalized hours of `b` are at most those of `a`. -/
theorem timeCompare_le (a b : Player) :
    (normalizedHours b - normalizedHours a).sortValue ≤ 0
      ↔ normalizedHours b ≤ normalizedHours a :=
  sortValue_sub_le _ _ (normalizedHours_ne_nan a) (normalizedHours_ne_nan b)

theorem normalizedHours_le_trans (a b c : Player)
    (h1 : normalizedHours b ≤ normalizedHours a) (h2 : normalizedHours c ≤ normalizedHours b) :
    normalizedHours c ≤ normalizedHours a :=
  JsNum.le_trans_of_ne_nan _ _ _ h1 h2

theorem normalizedHours_le_total (a b : Player) :
    normalizedHours b ≤ normalizedHours a ∨ normalizedHours a ≤ normalizedHours b :=
  JsNum.le_total_of_ne_nan _ _ (normalizedHours_ne_nan a) (normalizedHours_ne_nan b)

theorem parseInt_digits (ds : Str) (h : Run isDigitC ds) :
    parseInt ds = toDouble (integerValue ds) := by
  obtain ⟨hne, hall⟩ := h
  cases ds with
  | nil => exact absurd rfl hne
  | cons d rest =>
    have hd : d.isDigit = true := hall d (List.mem_cons_self _ _)
    have hd2 := (isDigit_iff d).mp hd
    have hsp : isSpace d = false := by
      simp only [isSpace, Bool.or_eq_false_iff, Bool.and_eq_false_iff, decide_eq_false_iff_not]
      omega
    have htw : (d :: rest).takeWhile Char.isDigit = d :: rest := by
      apply List.takeWhile_eq_self_iff.mpr
      intro c hc
      exact hall c hc
    have h1 : d ≠ '-' := by rintro rfl; revert hd; decide
    have h2 : d ≠ '+' := by rintro rfl; revert hd; decide
    have h3 : ¬ ((d :: rest).take 2 = ['0', 'x'] ∨ (d :: rest).take 2 = ['0', 'X']) := by
      rintro (h | h)
      · cases rest with
        | nil => simp at h
        | cons e rest =>
          simp only [List.take, List.cons.injEq, and_true] at h
          have := hall e (by simp)
          rw [h.2] at this
          revert this; decide
      · cases rest with
        | nil => simp at h
        | cons e rest =>
          simp only [List.take, List.cons.injEq, and_true] at h
          have := hall e (by simp)
          rw [h.2] at this
          revert this; decide
    simp only [parseInt, List.dropWhile, hsp, List.head?, Option.some.injEq, h1, h2, or_self,
      if_false, h3, htw, List.isEmpty_cons, decide_False, Bool.false_eq_true,
      decimalValue_eq_integerValue]

theorem Run.ne_nil {p : Char → Bool} {m : Str} (h : Run p m) : ∃ a l, m = a :: l := by
  cases m with
  | nil => exact absurd rfl h.1
  | cons a l => exact ⟨a, l, rfl⟩

theorem playerOfMatch_entry (m : Match) (e : Entry) (now : Int) (hok : e.Ok)
    (hc : m.caps = e.caps) : playerOfMatch m now = e.record now := by
  obtain ⟨rank, sep1, col, name, sep2, guild, amount, sep3, unit⟩ := e
  obtain ⟨hrank, hsep1, hcol, hname, hsep2, hguild, hamount, hsep3, hunit⟩ := hok
  simp only at hrank hamount hguild
  have h1 := parseInt_digits rank hrank
  have h5 := parseInt_digits amount hamount
  cases guild with
  | none =>
    simp [playerOfMatch, Match.group, hc, Entry.caps, List.lookup, Entry.record, h1, h5,
      Entry.guildTag]
  | some x =>
    obtain ⟨gc, gn, sp⟩ := x
    obtain ⟨a, l, rfl⟩ := hguild.2.1.ne_nil
    simp [playerOfMatch, Match.group, hc, Entry.caps, List.lookup, Entry.record, h1, h5,
      Entry.guildTag, templ]

/-- `topRegex` matches a line exactly when some part of the line is the text
of a well-formed entry. -/
theorem test_topRegex_iff (line : Str) :
    topRegex.test line = true ↔
      ∃ (pre post : Str) (e : Entry), e.Ok ∧ line = pre ++ e.text ++ post := by
  constructor
  · intro h
    simp only [Re.test, Option.isSome_iff_exists] at h
    rcases h with ⟨m, hm⟩
    rcases exec_some hm with ⟨h1, h2⟩
    rcases (derives_topRegex _ _).mp h2 with ⟨e, hok, ht, _⟩
    exact ⟨m.before, m.after, e, hok, by rw [h1, ht]⟩
  · rintro ⟨pre, post, e, hok, rfl⟩
    exact exec_isSome ((derives_topRegex _ _).mpr ⟨e, hok, rfl, rfl⟩)

/-- A match of `topRegex` on a line is a well-formed entry inside the line,
and the record built from the match is the record of that entry. -/
theorem exec_topRegex_entry (line : Str) (m : Match) (now : Int)
    (hm : topRegex.exec line = some m) :
    ∃ e : Entry, e.Ok ∧ m.matched = e.text ∧ line = m.before ++ e.text ++ m.after ∧
      playerOfMatch m now = e.record now := by
  rcases exec_some hm with ⟨h1, h2⟩
  rcases (derives_topRegex _ _).mp h2 with ⟨e, hok, ht, hc⟩
  exact ⟨e, hok, ht, by rw [h1, ht], playerOfMatch_entry m e now hok hc⟩

theorem search_some_leftmost (r : Re) : ∀ (s pre : Str) (m : Match),
    r.search pre s = some m →
    ∀ p suf : Str, s = p ++ suf → r.run suf [] ≠ [] → m.before.length ≤ pre.length + p.length := by
  intro s
  induction s with
  | nil =>
    intro pre m h p suf _ _
    simp only [Re.search] at h
    rw [(matchHere_some h).1, List.length_reverse]
    omega
  | cons c s ih =>
    intro pre m h p suf hs hrun
    simp only [Re.search] at h
    split at h
    · rename_i m1 hm1
      cases h
      rw [(matchHere_some hm1).1, List.length_reverse]
      omega
    · rename_i hnone
      cases p with
      | nil =>
        simp only [List.nil_append] at hs
        rw [← hs] at hrun
        exact absurd (matchHere_none.mp hnone) hrun
      | cons a p =>
        simp only [List.cons_append, List.cons.injEq] at hs
        have := ih (c :: pre) m h p suf hs.2 hrun
        simp only [List.length_cons] at this ⊢
        omega

/-- The match that `exec` reports starts at the first place of the line where
a well-formed entry starts. -/
theorem exec_topRegex_leftmost (line : Str) (m : Match) (hm : topRegex.exec line = some m)
    (pre post : Str) (e : Entry) (hok : e.Ok) (hline : line = pre ++ e.text ++ post) :
    m.before.length ≤ pre.length := by
  have hmem : (e.text, post, e.caps) ∈ topRegex.run (e.text ++ post) [] :=
    (mem_run topRegex _ _ _ _ _).mpr ⟨rfl, (derives_topRegex _ _).mpr ⟨e, hok, rfl, rfl⟩⟩
  have hne : topRegex.run (e.text ++ post) [] ≠ [] := List.ne_nil_of_mem hmem
  have := search_some_leftmost topRegex line [] m hm pre (e.text ++ post)
    (by rw [hline, List.append_assoc]) hne
  simpa using this

theorem startsWith_mem {s t : Str} (h : startsWith s t = true) : ∀ c ∈ t, c ∈ s := by
  have hp : t <+: s := List.isPrefixOf_iff_prefix.mp h
  exact fun c hc => hp.subset hc

/-- A scoped clear whose test fails on every string of digits deletes nothing:
the loop walks the indices of the key array. -/
theorem clearWhere_eq (test : Str → Bool) (cache : Cache)
    (h : ∀ i : Nat, test (Nat.repr i).toList = false) : clearWhere test cache = cache := by
  unfold clearWhere
  apply foldl_keep
  intro key hkey y
  simp only [objectKeysOfArray, List.mem_map, List.mem_range] at hkey
  rcases hkey with ⟨i, _, rfl⟩
  simp only [h i]
  rfl

theorem startsWith_index_false (i : Nat) (t : Str) (ch : Char) (hch : ch ∈ t)
    (hd : ch.isDigit = false) : startsWith (Nat.repr i).toList t = false := by
  cases h : startsWith (Nat.repr i).toList t with
  | false => rfl
  | true =>
    have := repr_isDigit i ch (startsWith_mem h ch hch)
    rw [this] at hd
    cases hd

theorem includes_index_false (i : Nat) (t : Str) (ch : Char) (hch : ch ∈ t)
    (hd : ch.isDigit = false) : includes (Nat.repr i).toList t = false := by
  cases h : includes (Nat.repr i).toList t with
  | false => rfl
  | true =>
    have := repr_isDigit i ch (includes_mem h ch hch)
    rw [this] at hd
    cases hd

/-- The scoped targets of `/api/cache/clear` leave the cache as it is. -/
theorem apiCacheClear_scoped_keeps_cache (js : Builtins) (envKey : Option Str)
    (body : ClearBody) (st : State)
    (ht : body.target.map js.toLowerCase = some "leaderboard".toList ∨
      body.target.map js.toLowerCase = some "guilds".toList ∨
      body.target.map js.toLowerCase = some "images".toList) :
    (apiCacheClear js envKey body st).2 = st := by
  have h1 : clearWhere (fun k => startsWith k "leaderboard_".toList) st.cache = st.cache :=
    clearWhere_eq _ _ (fun i => startsWith_index_false i _ 'l' (by decide) (by decide))
  have h2 : clearWhere (fun k => startsWith k "guilds_".toList) st.cache = st.cache :=
    clearWhere_eq _ _ (fun i => startsWith_index_false i _ 'g' (by decide) (by decide))
  have h3 : clearWhere (fun k => includes k "_image_".toList) st.cache = st.cache :=
    clearWhere_eq _ _ (fun i => includes_index_false i _ '_' (by decide) (by decide))
  unfold apiCacheClear
  simp only [h1, h2, h3]
  split
  · rfl
  · split
    · rfl
    · split
      · rfl
      · split
        · rfl
        · rename_i n1 n2 n3
          rcases ht with h | h | h
          · exact absurd h n1
          · exact absurd h n2
          · exact absurd h n3

theorem sweep_get (now : Int) (st : State) (c : Category) :
    (sweep now st).top.get c =
      if now - (st.top.get c).lastUpdate > 60 * 60 * 1000 then
        { st.top.get c with lastUpdate := 0 }
      else st.top.get c := by
  obtain ⟨⟨l, m, w⟩, buf, cache⟩ := st
  cases c <;>
    simp only [sweep, List.foldl, Top.get, Top.set] <;>
    split_ifs <;> rfl

theorem digitVal_digitChar (k : Nat) (hk : k < 10) : digitVal (Nat.digitChar k) = k := by
  interval_cases k <;> rfl

theorem foldl_toDigitsCore (f : Nat) : ∀ (n : Nat) (ds : List Char), n < f →
    (Nat.toDigitsCore 10 f n ds).foldl (fun acc c => 10 * acc + digitVal c) 0
      = ds.foldl (fun acc c => 10 * acc + digitVal c) n := by
  induction f with
  | zero => intro n ds h; omega
  | succ f ih =>
    intro n ds h
    have hd : digitVal (Nat.digitChar (n % 10)) = n % 10 :=
      digitVal_digitChar _ (Nat.mod_lt _ (by decide))
    simp only [Nat.toDigitsCore]
    split
    · rename_i h0
      simp only [List.foldl_cons, hd]
      congr 1
      omega
    · rename_i h0
      rw [ih _ _ (by omega)]
      simp only [List.foldl_cons, hd]
      congr 1
      omega

/-- Reading the decimal text of a natural number gives the number back. -/
theorem decimalValue_repr (n : Nat) : decimalValue (Nat.repr n).toList = n := by
  have h : (Nat.repr n).toList = Nat.toDigits 10 n := rfl
  rw [h]
  exact foldl_toDigitsCore _ _ _ (Nat.lt_succ_self n)

theorem repr_toList_injective {a b : Nat} (h : (Nat.repr a).toList = (Nat.repr b).toList) :
    a = b := by
  have h2 := congrArg decimalValue h
  rw [decimalValue_repr, decimalValue_repr] at h2
  exact h2

theorem repr_toList_ne_nil (n : Nat) : (Nat.repr n).toList ≠ [] := by
  intro h
  have h2 := decimalValue_repr n
  rw [h] at h2
  have h3 : n = 0 := h2.symm
  subst h3
  revert h
  decide

theorem stripColors_no_marker : ∀ s : Str, '§' ∉ s → stripColors s = s := by
  intro s
  induction s using stripColors.induct with
  | case1 => intro _; rfl
  | case2 c => intro _; rfl
  | case3 c d s hc ih =>
    intro h
    exact absurd (hc.1 ▸ List.mem_cons_self _ _) h
  | case4 c d s hc ih =>
    intro h
    have h2 : '§' ∉ d :: s := fun hm => h (List.mem_cons_of_mem _ hm)
    simp only [stripColors, hc, if_false, ih h2]

theorem Run.no_marker {p : Char → Bool} {m : Str} (h : Run p m) (hp : p '§' = false) :
    '§' ∉ m := by
  intro hm
  have := h.2 '§' hm
  rw [hp] at this
  cases this

/-- The clean form of the username token of a well-formed entry is the token
without its first two characters, and holds no marker character. -/
theorem stripColors_username (e : Entry) (hok : e.Ok) :
    stripColors e.username = e.username.drop 2 ∧ '§' ∉ stripColors e.username := by
  obtain ⟨_, _, hcol, hname, _⟩ := hok
  have h1 : '§' ∉ e.color := hcol.no_marker (by decide)
  have h2 : '§' ∉ e.name := hname.no_marker (by decide)
  obtain ⟨a, l, hal⟩ := hcol.ne_nil
  have ha : isColorC a = true := hcol.2 a (by rw [hal]; exact List.mem_cons_self _ _)
  have h3 : '§' ∉ l ++ e.name := by
    intro hm
    rcases List.mem_append.mp hm with hm | hm
    · exact h1 (by rw [hal]; exact List.mem_cons_of_mem _ hm)
    · exact h2 hm
  have h4 : stripColors e.username = l ++ e.name := by
    simp only [Entry.username, hal, List.cons_append, stripColors, ha, and_self, if_true]
    exact stripColors_no_marker _ h3
  refine ⟨?_, by rw [h4]; exact h3⟩
  rw [h4]
  simp [Entry.username, hal]

theorem jsSlice_nil {α : Type} (a b : Int) : jsSlice ([] : List α) a b = [] := by
  simp [jsSlice]

theorem filterStep_nil (js : Builtins) (g : Option Str) : filterStep js g [] = [] := by
  unfold filterStep
  split <;> rfl

theorem sortStep_nil (js : Builtins) (sortBy : Str) : sortStep js sortBy [] = [] := by
  unfold sortStep
  split_ifs <;> rfl

theorem paginate_nat (L : List Player) (k l : Nat) :
    paginate ((k : Int) + 1) (l : Int) L = (L.drop (k * l)).take l := by
  have h1 : ((k : Int) + 1 - 1) * (l : Int) = ((k * l : Nat) : Int) := by
    push_cast; ring
  have h2 : ((k * l : Nat) : Int) + (l : Int) = ((k * l + l : Nat) : Int) := by
    push_cast; ring
  simp only [paginate]
  rw [h1, h2, jsSlice_nonneg]
  apply List.ext_getElem?
  intro j
  simp only [List.getElem?_take, List.getElem?_drop]
  by_cases hj : j < l
  · have : k * l + j < k * l + l := by omega
    simp [hj, this]
  · have : ¬ k * l + j < k * l + l := by omega
    simp [hj, this]

theorem flatten_pages {α : Type} (L : List α) (l : Nat) : ∀ m : Nat,
    ((List.range m).map (fun k => (L.drop (k * l)).take l)).flatten = L.take (m * l) := by
  intro m
  induction m with
  | zero => simp
  | succ m ih =>
    rw [List.range_succ, List.map_append, List.flatten_append, ih]
    simp only [List.map_cons, List.map_nil, List.flatten_cons, List.flatten_nil,
      List.append_nil]
    rw [Nat.succ_mul, List.take_add]

/-- `Math.ceil(n / d)` for a length `n` and a positive `d`: the least number
of pages of `d` items that hold `n` items. -/
theorem ceilDiv_spec (n l : Nat) (hl : 1 ≤ l) :
    ∃ m : Nat, ceilDiv (n : Int) (l : Int) = (m : Int) ∧ n ≤ m * l ∧
      (∀ k : Nat, k < m → k * l < n) := by
  have hpos : (0 : Int) < (l : Int) := by omega
  have hf : Int.fdiv (-(n : Int)) (l : Int) = (-(n : Int)) / (l : Int) :=
    Int.fdiv_eq_ediv _ (by omega)
  have h1 := Int.emod_add_ediv (-(n : Int)) (l : Int)
  have h2 := Int.emod_nonneg (-(n : Int)) (show (l : Int) ≠ 0 by omega)
  have h3 := Int.emod_lt_of_pos (-(n : Int)) hpos
  generalize hq : (-(n : Int)) / (l : Int) = q at *
  generalize hr : (-(n : Int)) % (l : Int) = r at *
  have hq0 : q ≤ 0 := by
    by_contra hc
    have : (l : Int) * 1 ≤ (l : Int) * q := Int.mul_le_mul_of_nonneg_left (by omega) (by omega)
    omega
  refine ⟨(-q).toNat, ?_, ?_, ?_⟩
  · simp only [ceilDiv, hf]
    omega
  · have hm : (((-q).toNat * l : Nat) : Int) = -((l : Int) * q) := by
      push_cast
      rw [Int.toNat_of_nonneg (by omega)]
      ring
    omega
  · intro k hk
    have hk2 : (k : Int) + 1 ≤ -q := by omega
    have : (l : Int) * ((k : Int) + 1) ≤ (l : Int) * (-q) :=
      Int.mul_le_mul_of_nonneg_left hk2 (by omega)
    have e1 : (l : Int) * ((k : Int) + 1) = ((k * l : Nat) : Int) + l := by push_cast; ring
    have e2 : (l : Int) * (-q) = -((l : Int) * q) := by ring
    omega

theorem pages_partition (L : List Player) (limit : Int) (hl : 1 ≤ limit) :
    0 ≤ ceilDiv (L.length : Int) limit ∧
    ((List.range (ceilDiv (L.length : Int) limit).toNat).map
        (fun (i : Nat) => paginate ((i : Int) + 1) limit L)).flatten = L ∧
    (∀ page : Int, 1 ≤ page → page ≤ ceilDiv (L.length : Int) limit →
      paginate page limit L ≠ []) ∧
    (∀ page : Int, ceilDiv (L.length : Int) limit < page → paginate page limit L = []) := by
  obtain ⟨l, rfl⟩ : ∃ l : Nat, limit = (l : Int) := ⟨limit.toNat, by omega⟩
  have hl1 : 1 ≤ l := by omega
  obtain ⟨m, hm, hup, hlow⟩ := ceilDiv_spec L.length l hl1
  rw [hm]
  refine ⟨by omega, ?_, ?_, ?_⟩
  · simp only [Int.toNat_ofNat, paginate_nat]
    rw [flatten_pages, List.take_of_length_le hup]
  · intro page h1 h2
    obtain ⟨k, rfl⟩ : ∃ k : Nat, page = (k : Int) + 1 := ⟨(page - 1).toNat, by omega⟩
    rw [paginate_nat]
    have hk : k * l < L.length := hlow k (by omega)
    intro h
    have hlen := congrArg List.length h
    simp only [List.length_take, List.length_drop, List.length_nil] at hlen
    omega
  · intro page h1
    obtain ⟨k, rfl⟩ : ∃ k : Nat, page = (k : Int) + 1 := ⟨(page - 1).toNat, by omega⟩
    rw [paginate_nat]
    have hk : m ≤ k := by omega
    have : m * l ≤ k * l := Nat.mul_le_mul_right l hk
    rw [List.drop_eq_nil_of_le (by omega), List.take_nil]

theorem ofInt_nonneg_range (v : Int) (h : 0 ≤ v) :
    (v < 2 ^ 53 ∧ JsNum.ofInt v = .fin v) ∨
    (2 ^ 53 ≤ v ∧ ((∃ r : Int, 2 ^ 53 ≤ r ∧ JsNum.ofInt v = .fin r) ∨
      JsNum.ofInt v = .inf false)) := by
  rcases ofInt_range v with h1 | h1 | h1
  · exact Or.inl ⟨h1.2.1, h1.2.2⟩
  · exact Or.inr h1
  · have := h1.1
    omega

/-- An index from 2^53 on, or `Infinity`, is clamped to the length. -/
theorem sliceIndex_large (len : Int) (x : JsNum) (hlen : len < 2 ^ 53)
    (hx : (∃ r : Int, 2 ^ 53 ≤ r ∧ x = .fin r) ∨ x = .inf false) :
    sliceIndex len x = len := by
  rcases hx with ⟨r, hr, rfl⟩ | rfl
  · simp only [sliceIndex]
    rw [if_neg (by omega)]
    omega
  · rfl

theorem jsSliceNum_fin {α : Type} (l : List α) (s e : Int) :
    jsSliceNum l (.fin s) (.fin e) = jsSlice l s e := rfl

theorem jsSliceNum_start_past {α : Type} (l : List α) (start stop : JsNum)
    (h : sliceIndex l.length start = l.length) : jsSliceNum l start stop = [] := by
  simp only [jsSliceNum, h, Int.toNat_ofNat, List.drop_length, List.take_nil]

theorem jsSlice_start_past {α : Type} (l : List α) (s e : Int) (h : (l.length : Int) ≤ s) :
    jsSlice l s e = [] := by
  have h0 : ¬ s < 0 := by omega
  have hk : min s (l.length : Int) = l.length := by omega
  simp only [jsSlice, if_neg h0, hk, Int.toNat_ofNat, List.drop_length, List.take_nil]

/-- A stop index from 2^53 on gives the same slice as any other stop index
from 2^53 on, or `Infinity`. -/
theorem jsSliceNum_stop_large {α : Type} (l : List α) (s e : Int) (stop : JsNum)
    (hlen : (l.length : Int) < 2 ^ 53) (he : 2 ^ 53 ≤ e)
    (hstop : (∃ r : Int, 2 ^ 53 ≤ r ∧ stop = .fin r) ∨ stop = .inf false) :
    jsSliceNum l (.fin s) stop = jsSlice l s e := by
  have h1 : sliceIndex l.length stop = l.length := sliceIndex_large _ _ hlen hstop
  have h2 : (if e < 0 then max ((l.length : Int) + e) 0 else min e (l.length : Int))
      = l.length := by
    rw [if_neg (by omega)]
    omega
  simp only [jsSliceNum, jsSlice, h1, h2]
  rfl

/-- For a page and a limit that are integers from 1 on, and fewer than 2^53
records, the rounding of `(page - 1) * limit` and of `startIndex + limit` does
not show: the pagination returns what `paginate` returns. -/
theorem paginateNum_fin (L : List Player) (page l : Int) (hp : 1 ≤ page) (hl : 1 ≤ l)
    (hlen : (L.length : Int) < 2 ^ 53) :
    paginateNum (.fin page) (.fin l) L = paginate page l L := by
  have e0 : page + -1 = page - 1 := by ring
  have hS0 : 0 ≤ (page - 1) * l := Int.mul_nonneg (by omega) (by omega)
  have hSl : (page - 1) * l ≤ (page - 1) * l + l := by omega
  show jsSliceNum L (JsNum.ofInt (page + -1) * JsNum.fin l)
      (JsNum.ofInt (page + -1) * JsNum.fin l + JsNum.fin l)
    = jsSlice L ((page - 1) * l) ((page - 1) * l + l)
  rw [e0]
  rcases ofInt_nonneg_range (page - 1) (by omega) with ⟨hA, eA⟩ | ⟨hB, hbig⟩
  · rw [eA]
    show jsSliceNum L (JsNum.ofInt ((page - 1) * l)) (JsNum.ofInt ((page - 1) * l) + JsNum.fin l) = _
    rcases ofInt_nonneg_range ((page - 1) * l) hS0 with ⟨hS, eS⟩ | ⟨hS, hbigS⟩
    · rw [eS]
      show jsSliceNum L (JsNum.fin ((page - 1) * l)) (JsNum.ofInt ((page - 1) * l + l)) = _
      rcases ofInt_nonneg_range ((page - 1) * l + l) (by omega) with ⟨hE, eE⟩ | ⟨hE, hbigE⟩
      · rw [eE]
        rfl
      · exact jsSliceNum_stop_large L _ _ _ hlen hE hbigE
    · rw [jsSliceNum_start_past L _ _ (sliceIndex_large _ _ hlen hbigS),
        jsSlice_start_past L _ _ (by omega)]
  · have hS : 2 ^ 53 ≤ (page - 1) * l := by
      have : (page - 1) * 1 ≤ (page - 1) * l := Int.mul_le_mul_of_nonneg_left hl (by omega)
      omega
    have hstart : (∃ r : Int, 2 ^ 53 ≤ r ∧ JsNum.ofInt (page - 1) * JsNum.fin l = .fin r) ∨
        JsNum.ofInt (page - 1) * JsNum.fin l = .inf false := by
      rcases hbig with ⟨r, hr, er⟩ | er
      · rw [er]
        show (∃ r2 : Int, 2 ^ 53 ≤ r2 ∧ JsNum.ofInt (r * l) = .fin r2) ∨
          JsNum.ofInt (r * l) = .inf false
        have hrl : 2 ^ 53 ≤ r * l := by
          have : r * 1 ≤ r * l := Int.mul_le_mul_of_nonneg_left hl (by omega)
          omega
        rcases ofInt_nonneg_range (r * l) (by omega) with ⟨h1, _⟩ | ⟨_, h2⟩
        · omega
        · exact h2
      · rw [er]
        right
        show (if l = 0 then JsNum.nan else JsNum.inf (false != decide (l < 0))) = _
        rw [if_neg (by omega)]
        have : decide (l < 0) = false := by simp; omega
        rw [this]
        rfl
    rw [jsSliceNum_start_past L _ _ (sliceIndex_large _ _ hlen hstart),
      jsSlice_start_past L _ _ (by omega)]

theorem filterStep_length_le (js : Builtins) (g : Option Str) (users : List Player) :
    (filterStep js g users).length ≤ users.length := by
  unfold filterStep
  split
  · exact List.length_filter_le _ _
  · exact Nat.le_refl _

theorem sortStep_perm (js : Builtins) (sortBy : Str) (users : List Player) :
    (sortStep js sortBy users).Perm users := by
  unfold sortStep
  split_ifs <;> exact jsSort_perm _ _

theorem paginateNum_nil (page limit : JsNum) : paginateNum page limit [] = [] := by
  simp [paginateNum, jsSliceNum]

/-- With the limit `Infinity` the start index is `NaN` or an infinity, and
every page is empty. -/
theorem paginateNum_inf (page : JsNum) (L : List Player) :
    paginateNum page (.inf false) L = [] := by
  have key : ∀ x : JsNum, jsSliceNum L (x * JsNum.inf false)
      (x * JsNum.inf false + JsNum.inf false) = [] := by
    intro x
    have hx : x * JsNum.inf false = .nan ∨ x * JsNum.inf false = .inf false ∨
        x * JsNum.inf false = .inf true := by
      cases x with
      | nan => exact Or.inl rfl
      | inf s => cases s <;> simp [HMul.hMul, Mul.mul, JsNum.mul]
      | fin a =>
        have e : JsNum.fin a * JsNum.inf false
            = (if a = 0 then JsNum.nan else JsNum.inf (decide (a < 0) != false)) := rfl
        rw [e]
        split
        · exact Or.inl rfl
        · cases decide (a < 0) <;> simp
    rcases hx with h | h | h <;> rw [h]
    · show jsSliceNum L .nan .nan = []
      simp [jsSliceNum, sliceIndex]
    · show jsSliceNum L (.inf false) (.inf false) = []
      simp [jsSliceNum, sliceIndex]
    · show jsSliceNum L (.inf true) .nan = []
      simp [jsSliceNum, sliceIndex]
  exact key (page - 1)

theorem ceilQuot_fin (n l : Int) (hl : l ≠ 0) : ceilQuot n (.fin l) = .fin (ceilDiv n l) := by
  simp [ceilQuot, hl]

/-- The `players` of the json response sent after the cache check. -/
theorem topResponse_players (js : Builtins)
    (render : List ProcessedPlayer → Str → Int → Option Str → Option (List Nat))
    (p : TopParams) (now : Int) (st : State) (c : Category)
    (hc : Category.ofName p.duration = some c) (hj : p.responseType = "json".toList) :
    (topResponse js render p now st).players
      = (paginateNum p.page p.limit
          (sortStep js p.sortBy (filterStep js p.filterGuild (st.top.get c).users))).map
          processPlayer := by
  simp only [topResponse, topAfterCacheCheck, hc, hj, if_true]
  rfl

/-- For a finite limit at least 1 and a dataset of fewer than 2^32 records (as
every array has), there is a number of pages `m`, the ceiling of the number of
filtered records over the limit, such that the json response of `/api/mc/top`
for every page from 1 on reports the number of filtered records as
`totalItems` and `m` as `totalPages`; the `players` of the responses for the
pages 1 to `m`, put end to end, are the whole filtered and sorted list, each
record in its display form and holding the record itself; each of these
responses holds a record; and the response for every page after `m` holds
none. -/
theorem pages_partition_responses (js : Builtins)
    (render : List ProcessedPlayer → Str → Int → Option Str → Option (List Nat))
    (p : TopParams) (now : Int) (st : State) (c : Category) (limit : Int)
    (hlim : p.limit = .fin limit) (hl : 1 ≤ limit)
    (hc : Category.ofName p.duration = some c) (hj : p.responseType = "json".toList)
    (hlen : (st.top.get c).users.length < 2 ^ 32) :
    ∃ m : Nat,
      (m : Int) = ceilDiv (sortStep js p.sortBy
          (filterStep js p.filterGuild (st.top.get c).users)).length limit ∧
      (∀ page : Int, 1 ≤ page →
        ∃ data, topResponse js render { p with page := .fin page } now st
            = .json false (.leaderboard data) ∧
          data.pagination.totalItems
            = ((sortStep js p.sortBy
                (filterStep js p.filterGuild (st.top.get c).users)).length : Int) ∧
          data.pagination.totalPages = .fin m) ∧
      ((List.range m).map (fun (i : Nat) =>
          (topResponse js render { p with page := .fin ((i : Int) + 1) } now st).players)).flatten
        = (sortStep js p.sortBy
            (filterStep js p.filterGuild (st.top.get c).users)).map processPlayer ∧
      (((List.range m).map (fun (i : Nat) =>
          (topResponse js render { p with page := .fin ((i : Int) + 1) } now st).players)).flatten).map
          (fun x => x.player)
        = sortStep js p.sortBy (filterStep js p.filterGuild (st.top.get c).users) ∧
      (∀ page : Int, 1 ≤ page → page ≤ m →
        (topResponse js render { p with page := .fin page } now st).players ≠ []) ∧
      (∀ page : Int, (m : Int) < page →
        (topResponse js render { p with page := .fin page } now st).players = []) := by
  obtain ⟨h0, hflat, hne, hemp⟩ := pages_partition
    (sortStep js p.sortBy (filterStep js p.filterGuild (st.top.get c).users)) limit hl
  have hL : ((sortStep js p.sortBy
      (filterStep js p.filterGuild (st.top.get c).users)).length : Int) < 2 ^ 53 := by
    have h1 := (sortStep_perm js p.sortBy
      (filterStep js p.filterGuild (st.top.get c).users)).length_eq
    have h2 := filterStep_length_le js p.filterGuild (st.top.get c).users
    have h3 : (2 : Nat) ^ 32 < 2 ^ 53 := by decide
    have h4 : (sortStep js p.sortBy
        (filterStep js p.filterGuild (st.top.get c).users)).length < 2 ^ 53 := by omega
    exact_mod_cast h4
  have hplayers : ∀ page : Int, 1 ≤ page →
      (topResponse js render { p with page := .fin page } now st).players
        = (paginate page limit (sortStep js p.sortBy
            (filterStep js p.filterGuild (st.top.get c).users))).map processPlayer := by
    intro page hp
    rw [topResponse_players js render { p with page := .fin page } now st c hc hj]
    show (paginateNum (.fin page) p.limit _).map processPlayer = _
    rw [hlim, paginateNum_fin _ page limit hp hl hL]
  refine ⟨(ceilDiv (sortStep js p.sortBy
      (filterStep js p.filterGuild (st.top.get c).users)).length limit).toNat,
    by omega, ?_, ?_, ?_, ?_, ?_⟩
  · intro page _
    simp only [topResponse, topAfterCacheCheck, hc, hj, if_true]
    refine ⟨_, rfl, rfl, ?_⟩
    show ceilQuot _ p.limit = _
    rw [hlim, ceilQuot_fin _ _ (by omega)]
    congr 1
    omega
  · have h2 := congrArg (List.map processPlayer) hflat
    rw [List.map_flatten, List.map_map] at h2
    rw [← h2]
    congr 1
    apply List.map_congr_left
    intro i _
    exact hplayers _ (by omega)
  · have h2 : ((List.range (ceilDiv (sortStep js p.sortBy
        (filterStep js p.filterGuild (st.top.get c).users)).length limit).toNat).map
        (fun (i : Nat) =>
          (topResponse js render { p with page := .fin ((i : Int) + 1) } now st).players))
        = (List.range (ceilDiv (sortStep js p.sortBy
        (filterStep js p.filterGuild (st.top.get c).users)).length limit).toNat).map
        (fun (i : Nat) => (paginate ((i : Int) + 1) limit (sortStep js p.sortBy
            (filterStep js p.filterGuild (st.top.get c).users))).map processPlayer) := by
      apply List.map_congr_left
      intro i _
      exact hplayers _ (by omega)
    rw [h2]
    have h3 := congrArg (List.map processPlayer) hflat
    rw [List.map_flatten, List.map_map] at h3
    have h4 : (fun (i : Nat) => (paginate ((i : Int) + 1) limit (sortStep js p.sortBy
            (filterStep js p.filterGuild (st.top.get c).users))).map processPlayer)
        = List.map processPlayer ∘ (fun (i : Nat) => paginate ((i : Int) + 1) limit
            (sortStep js p.sortBy (filterStep js p.filterGuild (st.top.get c).users))) := rfl
    rw [h4, h3, List.map_map]
    exact List.map_id _
  · intro page h1 h2
    rw [hplayers page h1]
    intro h
    exact hne page h1 (by omega) (List.map_eq_nil_iff.mp h)
  · intro page h1
    rw [hplayers page (by omega), hemp page (by omega), List.map_nil]

/-! ## The claims -/

/-- C1 (code defect): after the commit of a non-empty buffer into MONTHLY, a
cache key that contains MONTHLY is still in the cache, with its value: the
invalidation loop of the `entityUpdate` handler removes no key. -/
theorem C1_monthly_key_survives_commit :
    ∃ st act,
      entityUpdate true (some Category.MONTHLY.label) 1700000000000
        { State.init with
          uncategorizedPlayers := [⟨1, "§aBob".toList, [], 5, "Hours".toList, 1699999999000⟩],
          cache := [("leaderboard_MONTHLY_json_10_1_top_all".toList, .image [1]),
                    ("leaderboard_WEEKLY_json_10_1_top_all".toList, .image [2])] }
        = .ok (st, act) ∧
      includes "leaderboard_MONTHLY_json_10_1_top_all".toList Category.MONTHLY.name = true ∧
      st.cache.get "leaderboard_MONTHLY_json_10_1_top_all".toList = some (.image [1]) ∧
      st.cache.get "leaderboard_WEEKLY_json_10_1_top_all".toList = some (.image [2]) ∧
      st.top.MONTHLY.users.length = 1 := by
  refine ⟨_, _, rfl, ?_, ?_, ?_, ?_⟩ <;> decide

/-- C2: on the label of category C with a non-empty buffer, `top[C].users`
becomes exactly the buffered records in their order, whatever it held before,
`top[C].lastUpdate` becomes the commit time, and the buffer is emptied. -/
theorem C2_commit_replaces_users (moved : Bool) (c : Category) (now : Int) (st : State)
    (h : st.uncategorizedPlayers ≠ []) :
    ∃ st1 act, entityUpdate moved (some c.label) now st = .ok (st1, act) ∧
      (st1.top.get c).users = st.uncategorizedPlayers ∧
      (st1.top.get c).users.length = st.uncategorizedPlayers.length ∧
      (st1.top.get c).lastUpdate = now ∧
      st1.uncategorizedPlayers = [] := by
  refine ⟨_, _, entityUpdate_label_commit moved c now st h, commit_users c now st, ?_, ?_, rfl⟩
  · rw [commit_users]
  · simp only [commit, Top.get_set]
    split <;> rfl

theorem C2_commit_replaces_users_witness :
    ∃ st1 act,
      entityUpdate false (some Category.WEEKLY.label) 42
        { State.init with
          top := { State.init.top with
            WEEKLY := ⟨7, [⟨9, "§aOld".toList, [], 1, "Days".toList, 3⟩,
                           ⟨8, "§aOlder".toList, [], 1, "Days".toList, 3⟩]⟩ },
          uncategorizedPlayers := [⟨1, "§aBob".toList, [], 5, "Hours".toList, 40⟩] }
        = .ok (st1, act) ∧
      (st1.top.get .WEEKLY).users = [⟨1, "§aBob".toList, [], 5, "Hours".toList, 40⟩] ∧
      (st1.top.get .WEEKLY).users.length = 1 ∧
      (st1.top.get .WEEKLY).lastUpdate = 42 ∧
      st1.uncategorizedPlayers = [] :=
  C2_commit_replaces_users false .WEEKLY 42 _ (by decide)

/-- C3: for a line that `topRegex` matches, `updateLeaderboard` leaves only
the parsed record when the buffer holds at least 10 records and the rank is 1,
and appends the parsed record to the buffer in every other case. -/
theorem C3_updateLeaderboard_buffer (line : Str) (now : Int) (buf : List Player) (m : Match)
    (hm : topRegex.exec line = some m) :
    (10 ≤ buf.length ∧ (playerOfMatch m now).top = 1 →
      updateLeaderboard line now buf = [playerOfMatch m now]) ∧
    (¬ (10 ≤ buf.length ∧ (playerOfMatch m now).top = 1) →
      updateLeaderboard line now buf = buf ++ [playerOfMatch m now]) := by
  have key : (playerOfMatch m now).top = 1 ↔ parseInt ((m.group 1).getD []) = 1 := by
    simp only [playerOfMatch]
    cases parseInt ((m.group 1).getD []) with
    | nan => exact ⟨fun h => (by cases h), fun h => (by cases h)⟩
    | inf s => exact ⟨fun h => (by cases h), fun h => (by cases h)⟩
    | fin v =>
      constructor
      · intro h
        have h2 : (Qty.fin v) = Qty.fin 1 := h
        cases h2
        rfl
      · intro h
        have h2 : (JsNum.fin v) = JsNum.fin 1 := h
        cases h2
        rfl
  constructor
  · intro h
    have h2 : buf.length ≥ 10 ∧ parseInt ((m.group 1).getD []) = 1 := ⟨h.1, key.mp h.2⟩
    simp [updateLeaderboard, hm, h2]
  · intro h
    have h2 : ¬ (buf.length ≥ 10 ∧ parseInt ((m.group 1).getD []) = 1) :=
      fun h3 => h ⟨h3.1, key.mpr h3.2⟩
    simp only [updateLeaderboard, hm, if_neg h2]

theorem C3_updateLeaderboard_buffer_witness :
    updateLeaderboard "§r§e#1 §aBob §e(5 Hours)".toList 9
        (List.replicate 10 ⟨3, "§aAl".toList, [], 2, "Days".toList, 1⟩)
      = [⟨1, "§aBob".toList, [], 5, "Hours".toList, 9⟩] :=
  (C3_updateLeaderboard_buffer "§r§e#1 §aBob §e(5 Hours)".toList 9
    (List.replicate 10 ⟨3, "§aAl".toList, [], 2, "Days".toList, 1⟩)
    ⟨[], "§r§e#1 §aBob §e(5 Hours)".toList, [],
      [(6, "Hours".toList), (5, "5".toList), (2, "§aBob".toList), (1, "1".toList)]⟩
    (by decide)).1 ⟨by decide, by decide⟩

/-- C4 (as stated, refuted): a line that is not an entry as a whole, because
text surrounds the entry in it, is accepted: `updateLeaderboard` and the
data-line branch of the `entityUpdate` handler push its record. -/
theorem C4_embedded_entry_is_accepted :
    (∀ e : Entry, "x§r§e#1 §aBob §e(5 Hours)y".toList ≠ e.text) ∧
    updateLeaderboard "x§r§e#1 §aBob §e(5 Hours)y".toList 7 []
      = [⟨1, "§aBob".toList, [], 5, "Hours".toList, 7⟩] ∧
    entityUpdate true (some "x§r§e#1 §aBob §e(5 Hours)y".toList) 7 State.init
      = .ok ({ State.init with
                uncategorizedPlayers := [⟨1, "§aBob".toList, [], 5, "Hours".toList, 7⟩] },
             .none) := by
  refine ⟨?_, by decide, by rfl⟩
  intro e h
  have : ("x§r§e#1 §aBob §e(5 Hours)y".toList).head? = (e.text).head? := by rw [h]
  simp [Entry.text] at this

/-- C4 (amended): a line no part of which is a well-formed entry is not
matched: `updateLeaderboard` leaves the buffer as it is and throws nothing;
the data-line branch of the `entityUpdate` handler, which is taken when
`leaderboardStates[line]` is undefined (the line is neither a label nor a name
that every object inherits, such as `constructor`), leaves the whole state as
it is and throws nothing; and whenever the handler returns, on any branch, the
buffer is as before or emptied, never extended. -/
theorem C4_no_entry_no_record (line : Str)
    (hno : ¬ ∃ (pre post : Str) (e : Entry), e.Ok ∧ line = pre ++ e.text ++ post) :
    topRegex.test line = false ∧
    (∀ (now : Int) (buf : List Player), updateLeaderboard line now buf = buf) ∧
    (∀ (moved : Bool) (now : Int) (st : State), lookupLabel line = .undefined →
      entityUpdate moved (some line) now st = .ok (st, .none)) ∧
    (∀ (moved : Bool) (now : Int) (st st1 : State) (act : BotAction),
      entityUpdate moved (some line) now st = .ok (st1, act) →
      st1.uncategorizedPlayers = st.uncategorizedPlayers ∨ st1.uncategorizedPlayers = []) := by
  have ht : topRegex.test line = false := by
    cases h : topRegex.test line with
    | false => rfl
    | true => exact absurd ((test_topRegex_iff line).mp h) hno
  have hex : topRegex.exec line = none := by
    simpa [Re.test] using ht
  refine ⟨ht, ?_, ?_, ?_⟩
  · intro now buf
    simp [updateLeaderboard, hex]
  · intro moved now st hl
    simp [entityUpdate, hl, ht]
  · intro moved now st st1 act h
    simp only [entityUpdate] at h
    cases hl : lookupLabel line with
    | category c =>
      rw [hl] at h
      simp only [Except.ok.injEq, Prod.mk.injEq] at h
      rw [← h.1]
      split
      · exact Or.inr rfl
      · exact Or.inl rfl
    | inherited =>
      rw [hl] at h
      simp only at h
      split at h
      · cases h
      · simp only [Except.ok.injEq, Prod.mk.injEq] at h
        rw [← h.1]
        exact Or.inl rfl
    | undefined =>
      rw [hl] at h
      simp only [ht, Bool.false_eq_true, if_false, Except.ok.injEq, Prod.mk.injEq] at h
      rw [← h.1]
      exact Or.inl rfl

theorem C4_no_entry_no_record_witness :
    topRegex.test "#1 PlayerA (5 Hours)".toList = false ∧
    (∀ (now : Int) (buf : List Player),
      updateLeaderboard "#1 PlayerA (5 Hours)".toList now buf = buf) ∧
    (∀ (moved : Bool) (now : Int) (st : State),
      lookupLabel "#1 PlayerA (5 Hours)".toList = .undefined →
      entityUpdate moved (some "#1 PlayerA (5 Hours)".toList) now st = .ok (st, .none)) ∧
    (∀ (moved : Bool) (now : Int) (st st1 : State) (act : BotAction),
      entityUpdate moved (some "#1 PlayerA (5 Hours)".toList) now st = .ok (st1, act) →
      st1.uncategorizedPlayers = st.uncategorizedPlayers ∨ st1.uncategorizedPlayers = []) :=
  C4_no_entry_no_record "#1 PlayerA (5 Hours)".toList
    (fun h => absurd ((test_topRegex_iff _).mpr h) (by decide))

/-- C5 (as stated, refuted): the line with the rank digits 9007199254740993 is
accepted, the integer that these digits denote is 9007199254740993, and the
record pushed has `top` 9007199254740992, the nearest number. Likewise the
rank digits 9007199254740995 give 9007199254740996 and the amount digits
18014398509481987 give 18014398509481988. -/
theorem C5_rank_beyond_2_53_is_rounded :
    topRegex.test "§r§e#9007199254740993 §aBob §e(5 Hours)".toList = true ∧
    integerValue "9007199254740993".toList = 9007199254740993 ∧
    updateLeaderboard "§r§e#9007199254740993 §aBob §e(5 Hours)".toList 7 []
      = [⟨9007199254740992, "§aBob".toList, [], 5, "Hours".toList, 7⟩] ∧
    (9007199254740992 : Qty) ≠ Qty.fin (9007199254740993 : Nat) ∧
    updateLeaderboard "§r§e#9007199254740995 §aBob §e(18014398509481987 Hours)".toList 7 []
      = [⟨9007199254740996, "§aBob".toList, [], 18014398509481988, "Hours".toList, 7⟩] := by
  refine ⟨by decide, by decide, by decide, by decide, by decide⟩

/-- C5 (amended): for every line that `topRegex` matches, the match reported
is the first well-formed entry of the line, and the record pushed by
`updateLeaderboard` has the fields of that entry: `top` is the number nearest
to the integer that the rank digits denote, which is that integer when it is
below 2^53; `username` is the username token with its colour marker; `guild`
is the guild colour marker followed by the bracketed name (empty without a
guild segment); `hour` is read from the amount digits as `top` is from the
rank digits; and `timeUnit` is the unit word, Hours or Days. -/
theorem C5_parsed_fields (line : Str) (now : Int) (buf : List Player) (m : Match)
    (h : topRegex.exec line = some m) :
    ∃ (e : Entry) (r : Player),
      e.Ok ∧ m.matched = e.text ∧ line = m.before ++ e.text ++ m.after ∧
      (∀ (pre post : Str) (e2 : Entry), e2.Ok → line = pre ++ e2.text ++ post →
        m.before.length ≤ pre.length) ∧
      (updateLeaderboard line now buf).getLast? = some r ∧
      r.top = (toDouble (integerValue e.rank)).toQty ∧
      (integerValue e.rank < 2 ^ 53 → r.top = Qty.fin (integerValue e.rank)) ∧
      r.username = '§' :: e.color ++ e.name ∧
      r.guild = (match e.guild with
        | some (gc, gn, _) => ('§' :: gc) ++ "[".toList ++ gn ++ "]".toList
        | none => []) ∧
      r.hour = (toDouble (integerValue e.amount)).toQty ∧
      (integerValue e.amount < 2 ^ 53 → r.hour = Qty.fin (integerValue e.amount)) ∧
      r.timeUnit = e.unit ∧
      (e.unit = "Hours".toList ∨ e.unit = "Days".toList) := by
  rcases exec_topRegex_entry line m now h with ⟨e, hok, hmatched, hline, hrec⟩
  refine ⟨e, e.record now, hok, hmatched, hline,
    fun pre post e2 h2 hl => exec_topRegex_leftmost line m h pre post e2 h2 hl,
    ?_, rfl, ?_, rfl, ?_, rfl, ?_, rfl, hok.2.2.2.2.2.2.2.2⟩
  · simp [updateLeaderboard, h, hrec]
  · intro hs
    simp only [Entry.record, toDouble_small _ hs]
    rfl
  · simp only [Entry.record, Entry.guildTag]
    cases e.guild with
    | none => rfl
    | some x => rfl
  · intro hs
    simp only [Entry.record, toDouble_small _ hs]
    rfl

theorem C5_parsed_fields_witness :
    (∃ (e : Entry) (r : Player),
      e.Ok ∧ "§r§e#12 §aBob_1 §b[Gu ild] §e(5 Days)".toList = e.text ∧
      "x§r§e#12 §aBob_1 §b[Gu ild] §e(5 Days)y".toList
        = "x".toList ++ e.text ++ "y".toList ∧
      (∀ (pre post : Str) (e2 : Entry), e2.Ok →
        "x§r§e#12 §aBob_1 §b[Gu ild] §e(5 Days)y".toList = pre ++ e2.text ++ post →
        "x".toList.length ≤ pre.length) ∧
      (updateLeaderboard "x§r§e#12 §aBob_1 §b[Gu ild] §e(5 Days)y".toList 3 []).getLast?
        = some r ∧
      r.top = (toDouble (integerValue e.rank)).toQty ∧
      (integerValue e.rank < 2 ^ 53 → r.top = Qty.fin (integerValue e.rank)) ∧
      r.username = '§' :: e.color ++ e.name ∧
      r.guild = (match e.guild with
        | some (gc, gn, _) => ('§' :: gc) ++ "[".toList ++ gn ++ "]".toList
        | none => []) ∧
      r.hour = (toDouble (integerValue e.amount)).toQty ∧
      (integerValue e.amount < 2 ^ 53 → r.hour = Qty.fin (integerValue e.amount)) ∧
      r.timeUnit = e.unit ∧
      (e.unit = "Hours".toList ∨ e.unit = "Days".toList)) ∧
    updateLeaderboard "x§r§e#12 §aBob_1 §b[Gu ild] §e(5 Days)y".toList 3 []
      = [⟨12, "§aBob_1".toList, "§b[Gu ild]".toList, 5, "Days".toList, 3⟩] ∧
    integerValue "12".toList = 12 ∧ integerValue "5".toList = 5 :=
  ⟨C5_parsed_fields "x§r§e#12 §aBob_1 §b[Gu ild] §e(5 Days)y".toList 3 []
      ⟨"x".toList, "§r§e#12 §aBob_1 §b[Gu ild] §e(5 Days)".toList, "y".toList,
        [(6, "Days".toList), (5, "5".toList), (4, "Gu ild".toList), (3, "§b".toList),
         (2, "§aBob_1".toList), (1, "12".toList)]⟩ (by decide),
    by decide, by decide, by decide⟩

/-- C6 (as stated, refuted): from the initial state, the plain lines
`#1 PlayerA (5 Hours)` and `#2 PlayerB [Guild1] (3 Hours)` are not matched by
`topRegex`, the buffer stays empty, and the MONTHLY label commits nothing:
`top.MONTHLY.users` stays empty and `top.MONTHLY.lastUpdate` stays 0. -/
theorem C6_plain_lines_commit_nothing :
    ∃ s1 a1 s2 a2 s3 a3,
      entityUpdate true (some "#1 PlayerA (5 Hours)".toList) 1000 State.init = .ok (s1, a1) ∧
      entityUpdate true (some "#2 PlayerB [Guild1] (3 Hours)".toList) 2000 s1 = .ok (s2, a2) ∧
      entityUpdate true (some Category.MONTHLY.label) 3000 s2 = .ok (s3, a3) ∧
      s3.top.MONTHLY.users = [] ∧ s3.top.MONTHLY.lastUpdate = 0 :=
  ⟨_, _, _, _, _, _, rfl, rfl, rfl, rfl, rfl⟩

/-- C6 (amended): from a state with an empty buffer, the lines
`§r§e#1 §aPlayerA §e(5 Hours)` and `§r§e#2 §aPlayerB §b[Guild1] §e(3 Hours)`
followed by the MONTHLY label commit exactly 2 records into
`top.MONTHLY.users` (ranks 1 and 2, the second with the guild tag
`§b[Guild1]`) and set `top.MONTHLY.lastUpdate` to the time of the label event,
which is not 0. -/
theorem C6_colour_coded_lines_commit (m1 m2 m3 : Bool) (t1 t2 t3 : Int) (st : State)
    (hbuf : st.uncategorizedPlayers = []) (ht : t3 ≠ 0) :
    ∃ s1 a1 s2 a2 s3 a3,
      entityUpdate m1 (some "§r§e#1 §aPlayerA §e(5 Hours)".toList) t1 st = .ok (s1, a1) ∧
      entityUpdate m2 (some "§r§e#2 §aPlayerB §b[Guild1] §e(3 Hours)".toList) t2 s1
        = .ok (s2, a2) ∧
      entityUpdate m3 (some Category.MONTHLY.label) t3 s2 = .ok (s3, a3) ∧
      s3.top.MONTHLY.users =
        [⟨1, "§aPlayerA".toList, [], 5, "Hours".toList, t1⟩,
         ⟨2, "§aPlayerB".toList, "§b[Guild1]".toList, 3, "Hours".toList, t2⟩] ∧
      s3.top.MONTHLY.users.length = 2 ∧
      s3.top.MONTHLY.lastUpdate = t3 ∧ s3.top.MONTHLY.lastUpdate ≠ 0 ∧
      s3.uncategorizedPlayers = [] := by
  have e1 : entityUpdate m1 (some "§r§e#1 §aPlayerA §e(5 Hours)".toList) t1 st
      = .ok ({ st with uncategorizedPlayers :=
          [⟨1, "§aPlayerA".toList, [], 5, "Hours".toList, t1⟩] }, .none) := by
    have hl : lookupLabel "§r§e#1 §aPlayerA §e(5 Hours)".toList = .undefined := by decide
    have hx : topRegex.test "§r§e#1 §aPlayerA §e(5 Hours)".toList = true := by decide
    have hu : updateLeaderboard "§r§e#1 §aPlayerA §e(5 Hours)".toList t1 []
        = [⟨1, "§aPlayerA".toList, [], 5, "Hours".toList, t1⟩] := rfl
    simp only [entityUpdate, hl, hx, if_true, hbuf, hu]
  have e2 : ∀ s : State, s.uncategorizedPlayers
        = [⟨1, "§aPlayerA".toList, [], 5, "Hours".toList, t1⟩] →
      entityUpdate m2 (some "§r§e#2 §aPlayerB §b[Guild1] §e(3 Hours)".toList) t2 s
      = .ok ({ s with uncategorizedPlayers :=
          [⟨1, "§aPlayerA".toList, [], 5, "Hours".toList, t1⟩,
           ⟨2, "§aPlayerB".toList, "§b[Guild1]".toList, 3, "Hours".toList, t2⟩] }, .none) := by
    intro s hs
    have hl : lookupLabel "§r§e#2 §aPlayerB §b[Guild1] §e(3 Hours)".toList = .undefined := by
      decide
    have hx : topRegex.test "§r§e#2 §aPlayerB §b[Guild1] §e(3 Hours)".toList = true := by
      decide
    have hu : updateLeaderboard "§r§e#2 §aPlayerB §b[Guild1] §e(3 Hours)".toList t2
        [⟨1, "§aPlayerA".toList, [], 5, "Hours".toList, t1⟩]
        = [⟨1, "§aPlayerA".toList, [], 5, "Hours".toList, t1⟩,
           ⟨2, "§aPlayerB".toList, "§b[Guild1]".toList, 3, "Hours".toList, t2⟩] := rfl
    simp only [entityUpdate, hl, hx, if_true, hs, hu]
  refine ⟨_, _, _, _, _, _, e1, e2 _ rfl, entityUpdate_label_commit m3 .MONTHLY t3 _ (by simp),
    ?_, ?_, ?_, ?_, rfl⟩
  · exact commit_users .MONTHLY t3 _
  · exact congrArg List.length (commit_users .MONTHLY t3 _)
  · show ((commit Category.MONTHLY t3 _).top.get .MONTHLY).lastUpdate = t3
    simp only [commit, Top.get_set]
    split <;> rfl
  · show ((commit Category.MONTHLY t3 _).top.get .MONTHLY).lastUpdate ≠ 0
    simp only [commit, Top.get_set]
    split <;> exact ht

theorem C6_colour_coded_lines_commit_witness :
    ∃ s1 a1 s2 a2 s3 a3,
      entityUpdate false (some "§r§e#1 §aPlayerA §e(5 Hours)".toList) 1000 State.init
        = .ok (s1, a1) ∧
      entityUpdate true (some "§r§e#2 §aPlayerB §b[Guild1] §e(3 Hours)".toList) 2000 s1
        = .ok (s2, a2) ∧
      entityUpdate true (some Category.MONTHLY.label) 3000 s2 = .ok (s3, a3) ∧
      s3.top.MONTHLY.users =
        [⟨1, "§aPlayerA".toList, [], 5, "Hours".toList, 1000⟩,
         ⟨2, "§aPlayerB".toList, "§b[Guild1]".toList, 3, "Hours".toList, 2000⟩] ∧
      s3.top.MONTHLY.users.length = 2 ∧
      s3.top.MONTHLY.lastUpdate = 3000 ∧ s3.top.MONTHLY.lastUpdate ≠ 0 ∧
      s3.uncategorizedPlayers = [] :=
  C6_colour_coded_lines_commit false true true 1000 2000 3000 State.init rfl (by decide)

/-- C7 (code defect): for every request whose output kind is json or image
and whose category is valid, the handler of `/api/mc/top` throws a
ReferenceError when it evaluates `bypassCache` and sends no response; the
handler of `/api/mc/guilds` does the same for every valid category. -/
theorem C7_handlers_throw_on_valid_requests (js : Builtins)
    (render : List ProcessedPlayer → Str → Int → Option Str → Option (List Nat))
    (q : TopQuery) (duration : Option Str) (refreshed : Bool) (now : Int) (st : State)
    (hkind : (topParams js q).responseType = "json".toList ∨
      (topParams js q).responseType = "image".toList)
    (hcat : ∃ c, Category.ofName (topParams js q).duration = some c)
    (hcat2 : ∃ c, Category.ofName (strOr (duration.map js.toUpperCase) "MONTHLY".toList) = some c) :
    apiMcTop js render q now st = .error (.referenceError "bypassCache") ∧
    apiMcGuilds js duration refreshed st = .error (.referenceError "bypassCache") := by
  rcases hcat with ⟨c, hc⟩
  rcases hcat2 with ⟨c2, hc2⟩
  constructor
  · simp only [apiMcTop, hc, bypassCache]
    rw [if_neg (not_not.mpr hkind)]
    simp
  · simp only [apiMcGuilds, hc2, bypassCache]

theorem C7_handlers_throw_on_valid_requests_witness :
    apiMcTop asciiBuiltins (fun _ _ _ _ => some [])
        ⟨some "json".toList, some "monthly".toList, none, none, none, none⟩ 1700000000000
        State.init = .error (.referenceError "bypassCache") ∧
    apiMcGuilds asciiBuiltins (some "weekly".toList) true State.init =
      .error (.referenceError "bypassCache") :=
  C7_handlers_throw_on_valid_requests asciiBuiltins (fun _ _ _ _ => some [])
    ⟨some "json".toList, some "monthly".toList, none, none, none, none⟩
    (some "weekly".toList) true 1700000000000 State.init
    (Or.inl (by decide)) ⟨.MONTHLY, by decide⟩ ⟨.WEEKLY, by decide⟩

/-- C8: for page at least 1 and limit between 1 and 100, the pagination step
returns the records at the zero-based indices from (page-1)*limit up to, and
not including, min(page*limit, length), in order; it is empty, with no error,
when (page-1)*limit is at least the length. With fewer than 2^53 records this
is what the pagination of the handler, with its rounded arithmetic, returns. -/
theorem C8_paginate_slice (L : List Player) (page limit : Int)
    (hp : 1 ≤ page) (hl : 1 ≤ limit) (hl2 : limit ≤ 100) :
    paginate page limit L
      = (L.take (min (page * limit).toNat L.length)).drop ((page - 1) * limit).toNat ∧
    (paginate page limit L).length
      = min (page * limit).toNat L.length - ((page - 1) * limit).toNat ∧
    (∀ j : Nat, ((page - 1) * limit).toNat + j < min (page * limit).toNat L.length →
      (paginate page limit L)[j]? = L[((page - 1) * limit).toNat + j]?) ∧
    ((L.length : Int) ≤ (page - 1) * limit → paginate page limit L = []) ∧
    ((L.length : Int) < 2 ^ 53 → paginateNum (.fin page) (.fin limit) L = paginate page limit L) := by
  have hs : 0 ≤ (page - 1) * limit := Int.mul_nonneg (by omega) (by omega)
  have he : 0 ≤ page * limit := Int.mul_nonneg (by omega) (by omega)
  have hse : (page - 1) * limit + limit = page * limit := by ring
  have hle : ((page - 1) * limit).toNat ≤ (page * limit).toNat := by omega
  have key : paginate page limit L
      = (L.take (min (page * limit).toNat L.length)).drop ((page - 1) * limit).toNat := by
    have h1 : (page - 1) * limit = (((page - 1) * limit).toNat : Int) := by omega
    have h2 : (page - 1) * limit + limit = ((page * limit).toNat : Int) := by omega
    simp only [paginate]
    rw [h2, h1, jsSlice_nonneg]
    simp only [Int.toNat_ofNat]
    congr 1
    rw [List.take_eq_take]
    simp
  refine ⟨key, ?_, ?_, ?_, fun hlen => paginateNum_fin L page limit hp hl hlen⟩
  · rw [key]; simp
  · intro j hj
    rw [key, List.getElem?_drop, List.getElem?_take]
    simp [hj]
  · intro h
    rw [key]
    apply List.drop_eq_nil_of_le
    simp only [List.length_take]
    omega

theorem C8_paginate_slice_witness :
    paginate 2 10 ((List.range 25).map (fun (i : Nat) => (⟨.fin i, [], [], 0, [], 0⟩ : Player)))
      = ((List.range' 10 10).map (fun (i : Nat) => (⟨.fin i, [], [], 0, [], 0⟩ : Player))) ∧
    paginate 4 10 ((List.range 25).map (fun (i : Nat) => (⟨.fin i, [], [], 0, [], 0⟩ : Player))) = [] := by
  have h := C8_paginate_slice ((List.range 25).map (fun (i : Nat) => (⟨.fin i, [], [], 0, [], 0⟩ : Player)))
    2 10 (by decide) (by decide) (by decide)
  have h4 := C8_paginate_slice ((List.range 25).map (fun (i : Nat) => (⟨.fin i, [], [], 0, [], 0⟩ : Player)))
    4 10 (by decide) (by decide) (by decide)
  refine ⟨h.1.trans (by decide), h4.2.2.2.1 (by decide)⟩

/-- C9: the `time` sort returns a permutation of its input in non-increasing
order of normalized hours (hour*24 for Days, hour otherwise), and records of
equal normalized hours keep their relative order; a record of 1 Days comes
before a record of 20 Hours. -/
theorem C9_sort_time_stable_descending (js : Builtins) (L : List Player) :
    (sortStep js "time".toList L).Perm L ∧
    (sortStep js "time".toList L).Pairwise
      (fun a b => normalizedHours b ≤ normalizedHours a) ∧
    (∀ h : JsNum,
      (sortStep js "time".toList L).filter (fun a => decide (normalizedHours a = h))
        = L.filter (fun a => decide (normalizedHours a = h))) ∧
    sortStep js "time".toList
        [⟨1, "§aA".toList, [], 20, "Hours".toList, 0⟩, ⟨2, "§aB".toList, [], 1, "Days".toList, 0⟩]
      = [⟨2, "§aB".toList, [], 1, "Days".toList, 0⟩, ⟨1, "§aA".toList, [], 20, "Hours".toList, 0⟩] := by
  have hs : ∀ l : List Player, sortStep js "time".toList l
      = jsSort (fun a b => (normalizedHours b - normalizedHours a).sortValue) l := by
    intro l
    unfold sortStep
    rw [if_neg (by decide), if_pos rfl]
  refine ⟨?_, ?_, ?_, ?_⟩
  · rw [hs]; exact jsSort_perm _ _
  · rw [hs]
    exact jsSort_pairwise _ _ timeCompare_le
      (fun a b c h1 h2 => normalizedHours_le_trans a b c h1 h2)
      (fun a b => normalizedHours_le_total a b) _
  · intro h
    rw [hs]
    refine jsSort_filter _ normalizedHours h (fun a b hab heq => ?_) _
    apply hab
    rw [heq]
    rw [timeCompare_le]
    rcases normalizedHours_le_total b b with h | h <;> exact h
  · rw [hs]; decide

/-- C10: with a non-empty guild filter f the filter step keeps, in their
original order, exactly the records whose guild tag is not empty and whose
lower-cased guild tag contains the lower-cased f; with no filter it keeps
every record. -/
theorem C10_filter_guild (js : Builtins) (f : Str) (L : List Player) (hf : f ≠ []) :
    filterStep js (some f) L
      = L.filter (fun p =>
          decide (p.guild ≠ [] ∧ js.toLowerCase f <:+: js.toLowerCase p.guild)) ∧
    filterStep js none L = L := by
  refine ⟨?_, rfl⟩
  cases f with
  | nil => exact absurd rfl hf
  | cons c f =>
    simp only [filterStep]
    apply List.filter_congr
    intro p _
    rw [Bool.eq_iff_iff]
    simp [includes_iff]

theorem C10_filter_guild_witness :
    filterStep asciiBuiltins (some "gUiLd".toList)
        [⟨1, "§aA".toList, "§b[Guild1]".toList, 5, "Hours".toList, 0⟩,
         ⟨2, "§aB".toList, [], 4, "Hours".toList, 0⟩,
         ⟨3, "§aC".toList, "§c[Other]".toList, 3, "Hours".toList, 0⟩,
         ⟨4, "§aD".toList, "§b[myGUILD]".toList, 2, "Hours".toList, 0⟩]
      = [⟨1, "§aA".toList, "§b[Guild1]".toList, 5, "Hours".toList, 0⟩,
         ⟨4, "§aD".toList, "§b[myGUILD]".toList, 2, "Hours".toList, 0⟩] :=
  (C10_filter_guild asciiBuiltins "gUiLd".toList _ (by decide)).1.trans (by decide)


/-- C11 (code defect): for a valid category whose dataset was never populated,
the code of `/api/mc/top` after the cache check answers no 404: it asks for a
refresh and, for the output kind json, sends a successful response with no
players, `totalItems` 0, `lastUpdated` null and `isStale` true; on the same
state the code of `/api/mc/guilds` after its cache check answers 404. -/
theorem C11_unpopulated_is_served_empty (js : Builtins)
    (render : List ProcessedPlayer → Str → Int → Option Str → Option (List Nat))
    (p : TopParams) (cacheKey : Str) (now : Int) (st : State) (c : Category)
    (hc : Category.ofName p.duration = some c)
    (hl : (st.top.get c).lastUpdate = 0) (hu : (st.top.get c).users = []) :
    (∀ msg, (topAfterCacheCheck js render p cacheKey now st).response ≠ .error 404 msg) ∧
    (topAfterCacheCheck js render p cacheKey now st).refresh = true ∧
    (p.responseType = "json".toList →
      ∃ data, (topAfterCacheCheck js render p cacheKey now st).response
          = .json false (.leaderboard data) ∧
        data.players = [] ∧ data.pagination.totalItems = 0 ∧
        data.lastUpdated = none ∧ data.isStale = true) ∧
    (∀ (guildsKey : Str) (refreshed : Bool),
      ∃ msg, (guildsAfterCacheCheck c guildsKey refreshed st).response = .error 404 msg) := by
  have hstale : isDataStale 0 now = true := by simp [isDataStale]
  have hpipe : paginateNum p.page p.limit
      (sortStep js p.sortBy (filterStep js p.filterGuild [])) = [] := by
    rw [filterStep_nil, sortStep_nil]
    exact paginateNum_nil _ _
  refine ⟨?_, ?_, ?_, ?_⟩
  · intro msg
    simp only [topAfterCacheCheck, hc, hl, hu, hstale]
    split_ifs
    · simp
    · split <;> simp
    · simp
  · simp only [topAfterCacheCheck, hc, hl, hu, hstale]
    split_ifs
    · rfl
    · split <;> rfl
    · rfl
  · intro hj
    simp only [topAfterCacheCheck, hc, hl, hu, hstale, hj, if_true]
    refine ⟨_, rfl, ?_, ?_, rfl, rfl⟩
    · simp only [hpipe, List.map_nil]
    · simp [filterStep_nil, sortStep_nil]
  · intro guildsKey refreshed
    simp only [guildsAfterCacheCheck, hu, List.length_nil, if_true]
    exact ⟨_, rfl⟩

theorem C11_unpopulated_is_served_empty_witness :
    (∀ msg, (topAfterCacheCheck asciiBuiltins (fun _ _ _ _ => none)
        ⟨"json".toList, "WEEKLY".toList, none, 10, 1, "top".toList⟩
        "leaderboard_WEEKLY_json_10_1_top_all".toList 1700000000000 State.init).response
        ≠ .error 404 msg) ∧
    (topAfterCacheCheck asciiBuiltins (fun _ _ _ _ => none)
        ⟨"json".toList, "WEEKLY".toList, none, 10, 1, "top".toList⟩
        "leaderboard_WEEKLY_json_10_1_top_all".toList 1700000000000 State.init).response
      = .json false (.leaderboard
          { duration := "WEEKLY".toList, lastUpdated := none, isStale := true,
            pagination := ⟨1, 10, 0, 0⟩, filter := none, sortBy := "top".toList,
            players := [] }) ∧
    (guildsAfterCacheCheck .WEEKLY "guilds_WEEKLY".toList true State.init).response
      = .error 404 "refresh triggered" :=
  ⟨(C11_unpopulated_is_served_empty asciiBuiltins (fun _ _ _ _ => none)
      ⟨"json".toList, "WEEKLY".toList, none, 10, 1, "top".toList⟩
      "leaderboard_WEEKLY_json_10_1_top_all".toList 1700000000000 State.init .WEEKLY
      (by decide) (by decide) (by decide)).1, by decide, by decide⟩

/-- C12 (code defect): the handler of `/api/mc/top` checks neither the sort
field, nor the limit, nor the page. For the sort field `bogus`, the limit 1000
and the page -3 the parameters are taken as they are, the handler throws at
`bypassCache` instead of answering 400, and the code after the cache check
sends a successful response and writes it to the cache; with the limit 1000
and a dataset of 101 records the response holds all 101 records, more than the
100 that the documentation served by `/api/docs` gives as the largest limit;
the sort field `bogus` sorts by rank, as `top` does; and a request whose
`responseType` is given twice gets a TypeError, not the 400 of an invalid
output kind. -/
theorem C12_bad_sort_limit_page_get_no_400 :
    (topParams asciiBuiltins
        ⟨some "json".toList, some "monthly".toList, none, some "1000".toList,
          some "-3".toList, some "bogus".toList⟩)
      = ⟨"json".toList, "MONTHLY".toList, none, 1000, -3, "bogus".toList⟩ ∧
    apiMcTop asciiBuiltins (fun _ _ _ _ => none)
        ⟨some "json".toList, some "monthly".toList, none, some "1000".toList,
          some "-3".toList, some "bogus".toList⟩ 1700000000000 State.init
      = .error (.referenceError "bypassCache") ∧
    topCacheKey asciiBuiltins
        ⟨"json".toList, "MONTHLY".toList, none, 1000, -3, "bogus".toList⟩
      = "leaderboard_MONTHLY_json_1000_-3_bogus_all".toList ∧
    (topAfterCacheCheck asciiBuiltins (fun _ _ _ _ => none)
        ⟨"json".toList, "MONTHLY".toList, none, 1000, -3, "bogus".toList⟩
        "leaderboard_MONTHLY_json_1000_-3_bogus_all".toList 1700000000000 State.init).response
      = .json false (.leaderboard
          { duration := "MONTHLY".toList, lastUpdated := none, isStale := true,
            pagination := ⟨-3, 1000, 0, 0⟩, filter := none, sortBy := "bogus".toList,
            players := [] }) ∧
    (topAfterCacheCheck asciiBuiltins (fun _ _ _ _ => none)
        ⟨"json".toList, "MONTHLY".toList, none, 1000, -3, "bogus".toList⟩
        "leaderboard_MONTHLY_json_1000_-3_bogus_all".toList 1700000000000
        State.init).state.cache.keys
      = ["leaderboard_MONTHLY_json_1000_-3_bogus_all".toList] ∧
    (topResponse asciiBuiltins (fun _ _ _ _ => none)
        (topParams asciiBuiltins
          ⟨some "json".toList, some "monthly".toList, none, some "1000".toList, none,
            some "bogus".toList⟩)
        1700000000000
        { State.init with
          top := { State.init.top with
            MONTHLY := ⟨1699999999000,
              (List.range 101).map
                (fun (i : Nat) => (⟨.fin i, [], [], 0, [], 0⟩ : Player))⟩ } }).players.length
      = 101 ∧
    sortStep asciiBuiltins "bogus".toList
        [⟨3, "§aCid".toList, [], 1, "Hours".toList, 0⟩,
         ⟨1, "§aAnn".toList, [], 9, "Hours".toList, 0⟩,
         ⟨2, "§aBob".toList, [], 7, "Hours".toList, 0⟩]
      = [⟨1, "§aAnn".toList, [], 9, "Hours".toList, 0⟩,
         ⟨2, "§aBob".toList, [], 7, "Hours".toList, 0⟩,
         ⟨3, "§aCid".toList, [], 1, "Hours".toList, 0⟩] ∧
    apiMcTopRaw asciiBuiltins (fun _ _ _ _ => none)
        ⟨some (.other "xml,xml".toList), some (.str "monthly".toList), none, none, none, none⟩
        1700000000000 State.init
      = .error (.typeError "req.query.responseType?.toLowerCase is not a function") := by
  refine ⟨by decide, rfl, by decide, by decide, by decide, by decide, by decide, rfl⟩

/-- C13 (code defect): a request with no guild filter and a request with the
guild filter `all` get the same cache key although their responses differ. On
a dataset with one record of the guild `[Allies]` and one of the guild
`[Other]`, the first is answered with both records and the second with the
record of `[Allies]` only, and what the first writes to the cache is what the
cache holds under the key of the second. The separator of the key can also
occur in the parameters: the sort field `top_x` with the guild filter `y` and
the sort field `top` with the guild filter `x_y` get the same key. -/
theorem C13_no_filter_and_all_share_a_key :
    (topParams asciiBuiltins
        ⟨some "json".toList, some "monthly".toList, none, none, none, none⟩)
      = ⟨"json".toList, "MONTHLY".toList, none, 10, 1, "top".toList⟩ ∧
    (topParams asciiBuiltins
        ⟨some "json".toList, some "monthly".toList, some "all".toList, none, none, none⟩)
      = ⟨"json".toList, "MONTHLY".toList, some "all".toList, 10, 1, "top".toList⟩ ∧
    topCacheKey asciiBuiltins ⟨"json".toList, "MONTHLY".toList, none, 10, 1, "top".toList⟩
      = "leaderboard_MONTHLY_json_10_1_top_all".toList ∧
    topCacheKey asciiBuiltins
        ⟨"json".toList, "MONTHLY".toList, some "all".toList, 10, 1, "top".toList⟩
      = "leaderboard_MONTHLY_json_10_1_top_all".toList ∧
    (topResponse asciiBuiltins (fun _ _ _ _ => none)
        ⟨"json".toList, "MONTHLY".toList, none, 10, 1, "top".toList⟩ 1700000000000
        { State.init with
          top := { State.init.top with
            MONTHLY := ⟨1699999999000,
              [⟨1, "§aAnn".toList, "§b[Allies]".toList, 9, "Hours".toList, 0⟩,
               ⟨2, "§aBob".toList, "§c[Other]".toList, 7, "Hours".toList, 0⟩]⟩ } }).players
      = [⟨⟨1, "§aAnn".toList, "§b[Allies]".toList, 9, "Hours".toList, 0⟩, "Ann".toList, 9⟩,
         ⟨⟨2, "§aBob".toList, "§c[Other]".toList, 7, "Hours".toList, 0⟩, "Bob".toList, 7⟩] ∧
    (topResponse asciiBuiltins (fun _ _ _ _ => none)
        ⟨"json".toList, "MONTHLY".toList, some "all".toList, 10, 1, "top".toList⟩ 1700000000000
        { State.init with
          top := { State.init.top with
            MONTHLY := ⟨1699999999000,
              [⟨1, "§aAnn".toList, "§b[Allies]".toList, 9, "Hours".toList, 0⟩,
               ⟨2, "§aBob".toList, "§c[Other]".toList, 7, "Hours".toList, 0⟩]⟩ } }).players
      = [⟨⟨1, "§aAnn".toList, "§b[Allies]".toList, 9, "Hours".toList, 0⟩, "Ann".toList, 9⟩] ∧
    ((topAfterCacheCheck asciiBuiltins (fun _ _ _ _ => none)
        ⟨"json".toList, "MONTHLY".toList, none, 10, 1, "top".toList⟩
        (topCacheKey asciiBuiltins ⟨"json".toList, "MONTHLY".toList, none, 10, 1, "top".toList⟩)
        1700000000000
        { State.init with
          top := { State.init.top with
            MONTHLY := ⟨1699999999000,
              [⟨1, "§aAnn".toList, "§b[Allies]".toList, 9, "Hours".toList, 0⟩,
               ⟨2, "§aBob".toList, "§c[Other]".toList, 7, "Hours".toList, 0⟩]⟩ } }).state.cache.get
        (topCacheKey asciiBuiltins
          ⟨"json".toList, "MONTHLY".toList, some "all".toList, 10, 1, "top".toList⟩)).map
        (fun v => match v with
          | .leaderboard data => data.players.map (fun x => x.cleanUsername)
          | _ => [])
      = some ["Ann".toList, "Bob".toList] ∧
    topCacheKey asciiBuiltins
        ⟨"json".toList, "MONTHLY".toList, some "y".toList, 10, 1, "top_x".toList⟩
      = topCacheKey asciiBuiltins
        ⟨"json".toList, "MONTHLY".toList, some "x_y".toList, 10, 1, "top".toList⟩ := by
  refine ⟨by decide, by decide, by decide, by decide, by decide, by decide, by decide,
    by decide⟩

/-- C14 (code defect): a clear request with the right admin key and the
target `leaderboard` answers success but leaves the key that starts with
`leaderboard_` in the cache, and the targets `guilds` and `images` likewise
leave their keys; the target `all` empties the cache and a wrong key answers
401 with the cache unchanged. -/
theorem C14_scoped_clear_removes_nothing :
    (apiCacheClear asciiBuiltins none ⟨some defaultAdminKey, some "leaderboard".toList⟩
        { State.init with
          cache := [("leaderboard_MONTHLY_json_10_1_top_all".toList, .image [1]),
                    ("guilds_MONTHLY".toList, .other [])] }).2.cache.get
      "leaderboard_MONTHLY_json_10_1_top_all".toList = some (.image [1]) ∧
    (apiCacheClear asciiBuiltins none ⟨some defaultAdminKey, some "leaderboard".toList⟩
        { State.init with
          cache := [("leaderboard_MONTHLY_json_10_1_top_all".toList, .image [1]),
                    ("guilds_MONTHLY".toList, .other [])] }).1
      = .success "Leaderboard cache cleared" ∧
    (apiCacheClear asciiBuiltins none ⟨some defaultAdminKey, some "guilds".toList⟩
        { State.init with
          cache := [("leaderboard_MONTHLY_json_10_1_top_all".toList, .image [1]),
                    ("guilds_MONTHLY".toList, .other [])] }).2.cache.get
      "guilds_MONTHLY".toList = some (.other []) ∧
    (apiCacheClear asciiBuiltins none ⟨some defaultAdminKey, some "images".toList⟩
        { State.init with
          cache := [("leaderboard_MONTHLY_image_10_1_top_all".toList, .image [1])] }).2.cache.get
      "leaderboard_MONTHLY_image_10_1_top_all".toList = some (.image [1]) ∧
    (apiCacheClear asciiBuiltins none ⟨some defaultAdminKey, some "all".toList⟩
        { State.init with
          cache := [("leaderboard_MONTHLY_json_10_1_top_all".toList, .image [1]),
                    ("guilds_MONTHLY".toList, .other [])] }).2.cache = [] ∧
    apiCacheClear asciiBuiltins none ⟨some "guess".toList, some "all".toList⟩
        { State.init with
          cache := [("leaderboard_MONTHLY_json_10_1_top_all".toList, .image [1])] }
      = (.error 401 "Unauthorized. Invalid API key.",
         { State.init with
           cache := [("leaderboard_MONTHLY_json_10_1_top_all".toList, .image [1])] }) := by
  refine ⟨by decide, by decide, by decide, by decide, by decide, by decide⟩

/-- C15: the staleness flag of the leaderboard query is true exactly when
`lastUpdate` is 0 or `now - lastUpdate` exceeds 300000 ms; it is true before
any commit, false at the time of a commit (the flag of the data committed by
the `entityUpdate` handler, taken at the commit time), and true again once
more than 300000 ms have passed. -/
theorem C15_staleness_flag (lastUpdate now t : Int) (moved : Bool) (c : Category)
    (st : State) (ht : t ≠ 0) (hbuf : st.uncategorizedPlayers ≠ []) :
    (isDataStale lastUpdate now = true ↔ lastUpdate = 0 ∨ now - lastUpdate > 300000) ∧
    isDataStale 0 now = true ∧
    isDataStale t t = false ∧
    (∃ st1 act, entityUpdate moved (some c.label) t st = .ok (st1, act) ∧
      isDataStale (st1.top.get c).lastUpdate t = false) ∧
    (now - t > 300000 → isDataStale t now = true) := by
  have hiff : ∀ a b : Int, isDataStale a b = true ↔ a = 0 ∨ b - a > 300000 := by
    intro a b
    simp [isDataStale]
  have hself : isDataStale t t = false := by
    cases h : isDataStale t t with
    | false => rfl
    | true =>
      rcases (hiff t t).mp h with h | h
      · exact absurd h ht
      · omega
  refine ⟨hiff _ _, (hiff _ _).mpr (Or.inl rfl), hself, ?_, fun h => (hiff _ _).mpr (Or.inr h)⟩
  refine ⟨_, _, entityUpdate_label_commit moved c t st hbuf, ?_⟩
  have hl : ((commit c t st).top.get c).lastUpdate = t := by
    simp only [commit, Top.get_set]
    split <;> rfl
  rw [hl]
  exact hself

theorem C15_staleness_flag_witness :
    (isDataStale 1700000000000 1700000300001 = true ↔
      (1700000000000 : Int) = 0 ∨ (1700000300001 : Int) - 1700000000000 > 300000) ∧
    isDataStale 0 1700000300001 = true ∧
    isDataStale 1700000000000 1700000000000 = false ∧
    (∃ st1 act,
      entityUpdate true (some Category.MONTHLY.label) 1700000000000
        { State.init with
          uncategorizedPlayers := [⟨1, "§aBob".toList, [], 5, "Hours".toList, 1699999999000⟩] }
        = .ok (st1, act) ∧
      isDataStale (st1.top.get .MONTHLY).lastUpdate 1700000000000 = false) ∧
    ((1700000300001 : Int) - 1700000000000 > 300000 →
      isDataStale 1700000000000 1700000300001 = true) :=
  C15_staleness_flag 1700000000000 1700000300001 1700000000000 true .MONTHLY _
    (by decide) (by decide)

/-- C16: one run of the staleness sweeper leaves the users of every category
as they are, sets `lastUpdate` to 0 for exactly the categories with
`now - lastUpdate` above 3600000 ms, leaves `lastUpdate` as it is for the
others, and touches neither the buffer nor the cache. -/
theorem C16_sweep_resets_stale_timestamps (now : Int) (st : State) (c : Category) :
    ((sweep now st).top.get c).users = (st.top.get c).users ∧
    (now - (st.top.get c).lastUpdate > 3600000 → ((sweep now st).top.get c).lastUpdate = 0) ∧
    (¬ now - (st.top.get c).lastUpdate > 3600000 →
      ((sweep now st).top.get c).lastUpdate = (st.top.get c).lastUpdate) ∧
    (sweep now st).uncategorizedPlayers = st.uncategorizedPlayers ∧
    (sweep now st).cache = st.cache := by
  rw [sweep_get]
  refine ⟨?_, ?_, ?_, rfl, rfl⟩
  · split <;> rfl
  · intro h
    have h2 : now - (st.top.get c).lastUpdate > 60 * 60 * 1000 := by omega
    rw [if_pos h2]
  · intro h
    have h2 : ¬ now - (st.top.get c).lastUpdate > 60 * 60 * 1000 := by omega
    rw [if_neg h2]

/-- C17: from `reconnectAttempts = 0`, five calls of `attemptReconnect` in a
row set timers of 10000, 20000, 40000, 80000 and 160000 ms, the n-th being
10000 * 2^(n-1), and a sixth call sets no timer and leaves the counter at 5. -/
theorem C17_backoff_delays (b : Bool) :
    (attemptReconnect ⟨0, b⟩ = (⟨1, b⟩, some 10000)) ∧
    (attemptReconnect ⟨1, b⟩ = (⟨2, b⟩, some 20000)) ∧
    (attemptReconnect ⟨2, b⟩ = (⟨3, b⟩, some 40000)) ∧
    (attemptReconnect ⟨3, b⟩ = (⟨4, b⟩, some 80000)) ∧
    (attemptReconnect ⟨4, b⟩ = (⟨5, b⟩, some 160000)) ∧
    (attemptReconnect ⟨5, b⟩ = (⟨5, b⟩, none)) ∧
    (∀ n : Nat, 1 ≤ n → n ≤ 5 →
      attemptReconnect ⟨n - 1, b⟩ = (⟨n, b⟩, some (10000 * 2 ^ (n - 1)))) := by
  refine ⟨rfl, rfl, rfl, rfl, rfl, rfl, ?_⟩
  intro n h1 h5
  interval_cases n <;> rfl

/-- C18 (code defect): when no connection ever succeeds, every disconnect
sets a reconnect timer of 10000 ms again, however many came before: `startBot`
sets `reconnectAttempts` to 0 each time it runs, so the counter never reaches
`MAX_RECONNECT_ATTEMPTS` and the number of reconnects is not bounded by 5. -/
theorem C18_reconnects_unbounded (n : Nat) (b : Bool) :
    failedReconnects n ⟨0, b⟩ = List.replicate n (some 10000) ∧
    (failedReconnects 7 ⟨0, b⟩).length = 7 ∧
    (∀ s : Supervisor, (startBot s).reconnectAttempts = 0) := by
  have h : ∀ (k : Nat) (b : Bool),
      failedReconnects k ⟨0, b⟩ = List.replicate k (some 10000) := by
    intro k
    induction k with
    | zero => intro b; rfl
    | succ k ih =>
      intro b
      have hs : failedReconnect ⟨0, b⟩ = (⟨0, true⟩, some 10000) := rfl
      simp only [failedReconnects, hs, ih, List.replicate_succ]
  refine ⟨h n b, ?_, fun _ => rfl⟩
  rw [h 7 b]
  rfl

/-- C19: for every record that the parser produces, the display fields are:
`cleanUsername`, the raw username with its colour marker (the marker character
and the code after it) removed, which holds no marker character;
`hoursPlayed`, hour*24 when the unit is Days and hour otherwise; and the
record itself, carried over unchanged. -/
theorem C19_display_fields (line : Str) (m : Match) (now : Int)
    (hm : topRegex.exec line = some m) :
    (processPlayer (playerOfMatch m now)).cleanUsername
      = stripColors (playerOfMatch m now).username ∧
    (processPlayer (playerOfMatch m now)).cleanUsername
      = (playerOfMatch m now).username.drop 2 ∧
    (playerOfMatch m now).username.take 1 = ['§'] ∧
    '§' ∉ (processPlayer (playerOfMatch m now)).cleanUsername ∧
    (processPlayer (playerOfMatch m now)).hoursPlayed
      = (if (playerOfMatch m now).timeUnit = "Days".toList
          then ((playerOfMatch m now).hour : JsNum) * 24 else (playerOfMatch m now).hour) ∧
    (processPlayer (playerOfMatch m now)).player = playerOfMatch m now := by
  rcases exec_topRegex_entry line m now hm with ⟨e, hok, _, _, hrec⟩
  have hu : (playerOfMatch m now).username = e.username := by rw [hrec]; rfl
  have hs := stripColors_username e hok
  refine ⟨rfl, ?_, ?_, ?_, rfl, rfl⟩
  · show stripColors (playerOfMatch m now).username = _
    rw [hu]; exact hs.1
  · rw [hu]; rfl
  · show '§' ∉ stripColors (playerOfMatch m now).username
    rw [hu]; exact hs.2

theorem C19_display_fields_witness :
    (processPlayer ⟨12, "§6dark_knight".toList, "§b[Gu ild]".toList, 5, "Days".toList, 3⟩)
      = ⟨⟨12, "§6dark_knight".toList, "§b[Gu ild]".toList, 5, "Days".toList, 3⟩,
          "dark_knight".toList, 120⟩ ∧
    '§' ∉ (processPlayer
      ⟨12, "§6dark_knight".toList, "§b[Gu ild]".toList, 5, "Days".toList, 3⟩).cleanUsername := by
  have h := C19_display_fields "§r§e#12 §6dark_knight §b[Gu ild] §e(5 Days)".toList
    ⟨[], "§r§e#12 §6dark_knight §b[Gu ild] §e(5 Days)".toList, [],
      [(6, "Days".toList), (5, "5".toList), (4, "Gu ild".toList), (3, "§b".toList),
       (2, "§6dark_knight".toList), (1, "12".toList)]⟩ 3 (by decide)
  exact ⟨by decide, h.2.2.2.1⟩

/-- C20: with an empty buffer, the `entityUpdate` handler on the label of any
category commits nothing: the datasets, the buffer and the cache are exactly
as before. -/
theorem C20_label_with_empty_buffer (moved : Bool) (c : Category) (now : Int) (st : State)
    (h : st.uncategorizedPlayers = []) :
    ∃ act, entityUpdate moved (some c.label) now st = .ok (st, act) := by
  refine ⟨if !moved then .moveTo else .scheduleSwitch 30000, ?_⟩
  simp [entityUpdate, lookupLabel_label, h]

theorem C20_label_with_empty_buffer_witness :
    ∃ act, entityUpdate true (some Category.LIFETIME.label) 5
      { State.init with
        top := { State.init.top with LIFETIME := ⟨3, [⟨1, "§aBob".toList, [], 5, "Hours".toList, 2⟩]⟩ },
        cache := [("leaderboard_LIFETIME_json_10_1_top_all".toList, .image [1])] }
      = .ok ({ State.init with
        top := { State.init.top with LIFETIME := ⟨3, [⟨1, "§aBob".toList, [], 5, "Hours".toList, 2⟩]⟩ },
        cache := [("leaderboard_LIFETIME_json_10_1_top_all".toList, .image [1])] }, act) :=
  C20_label_with_empty_buffer true .LIFETIME 5 _ rfl

/-- C21 (code defect): the limit is not range-checked, and with the limit
`Infinity`, which is at least 1, the partition fails: for every dataset, guild
filter, sort field and page, the json response of `/api/mc/top` holds no
record and reports all the filtered records as `totalItems` and 0 as
`totalPages`, so that the records appear on no page. -/
theorem C21_infinite_limit_shows_no_record (js : Builtins)
    (render : List ProcessedPlayer → Str → Int → Option Str → Option (List Nat))
    (p : TopParams) (now : Int) (st : State) (c : Category)
    (hlim : p.limit = .inf false)
    (hc : Category.ofName p.duration = some c) (hj : p.responseType = "json".toList) :
    (1 : JsNum) ≤ p.limit ∧
    ∀ page : JsNum,
      ∃ data, topResponse js render { p with page := page } now st
          = .json false (.leaderboard data) ∧
        data.players = [] ∧
        data.pagination.totalItems
          = ((sortStep js p.sortBy
              (filterStep js p.filterGuild (st.top.get c).users)).length : Int) ∧
        data.pagination.totalPages = 0 := by
  refine ⟨by rw [hlim]; decide, ?_⟩
  intro page
  simp only [topResponse, topAfterCacheCheck, hc, hj, if_true]
  refine ⟨_, rfl, ?_, rfl, ?_⟩
  · show (paginateNum page p.limit _).map processPlayer = []
    rw [hlim, paginateNum_inf, List.map_nil]
  · show ceilQuot _ p.limit = 0
    rw [hlim]
    rfl

theorem C21_infinite_limit_shows_no_record_witness :
    (topParams asciiBuiltins
        ⟨some "json".toList, some "monthly".toList, none,
          some ('1' :: List.replicate 400 '0'), none, none⟩)
      = ⟨"json".toList, "MONTHLY".toList, none, .inf false, 1, "top".toList⟩ ∧
    topResponse asciiBuiltins (fun _ _ _ _ => none)
        ⟨"json".toList, "MONTHLY".toList, none, .inf false, 1, "top".toList⟩ 1700000000000
        { State.init with
          top := { State.init.top with
            MONTHLY := ⟨1699999999000,
              [⟨1, "§aAnn".toList, [], 9, "Hours".toList, 0⟩,
               ⟨2, "§aBob".toList, [], 7, "Hours".toList, 0⟩]⟩ } }
      = .json false (.leaderboard
          { duration := "MONTHLY".toList, lastUpdated := some 1699999999000, isStale := false,
            pagination := ⟨1, .inf false, 2, 0⟩, filter := none, sortBy := "top".toList,
            players := [] }) ∧
    (1 : JsNum) ≤ .inf false ∧
    (∀ page : JsNum,
      ∃ data, topResponse asciiBuiltins (fun _ _ _ _ => none)
          ⟨"json".toList, "MONTHLY".toList, none, .inf false, page, "top".toList⟩ 1700000000000
          { State.init with
            top := { State.init.top with
              MONTHLY := ⟨1699999999000,
                [⟨1, "§aAnn".toList, [], 9, "Hours".toList, 0⟩,
                 ⟨2, "§aBob".toList, [], 7, "Hours".toList, 0⟩]⟩ } }
          = .json false (.leaderboard data) ∧
        data.players = [] ∧
        data.pagination.totalItems = 2 ∧
        data.pagination.totalPages = 0) :=
  ⟨by decide!, by decide,
    C21_infinite_limit_shows_no_record asciiBuiltins (fun _ _ _ _ => none)
      ⟨"json".toList, "MONTHLY".toList, none, .inf false, 1, "top".toList⟩ 1700000000000
      { State.init with
        top := { State.init.top with
          MONTHLY := ⟨1699999999000,
            [⟨1, "§aAnn".toList, [], 9, "Hours".toList, 0⟩,
             ⟨2, "§aBob".toList, [], 7, "Hours".toList, 0⟩]⟩ } }
      .MONTHLY rfl (by decide) rfl⟩

/-- C22: on the label of category C the `entityUpdate` handler leaves the
users and the `lastUpdate` of every other category exactly as they were,
whether or not it commits. -/
theorem C22_other_categories_unchanged (moved : Bool) (c e : Category) (now : Int)
    (st : State) (h : e ≠ c) :
    ∃ st1 act, entityUpdate moved (some c.label) now st = .ok (st1, act) ∧
      (st1.top.get e).users = (st.top.get e).users ∧
      (st1.top.get e).lastUpdate = (st.top.get e).lastUpdate := by
  by_cases hb : st.uncategorizedPlayers = []
  · refine ⟨st, if !moved then .moveTo else .scheduleSwitch 30000, ?_, rfl, rfl⟩
    simp [entityUpdate, lookupLabel_label, hb]
  · refine ⟨_, _, entityUpdate_label_commit moved c now st hb, ?_, ?_⟩
    · simp only [commit]
      rw [Top.get_set_ne _ _ _ _ h]
    · simp only [commit]
      rw [Top.get_set_ne _ _ _ _ h]

theorem C22_other_categories_unchanged_witness :
    ∃ st1 act,
      entityUpdate true (some Category.MONTHLY.label) 42
        { State.init with
          top := { State.init.top with
            WEEKLY := ⟨7, [⟨9, "§aOld".toList, [], 1, "Days".toList, 3⟩]⟩ },
          uncategorizedPlayers := [⟨1, "§aBob".toList, [], 5, "Hours".toList, 40⟩] }
        = .ok (st1, act) ∧
      (st1.top.get .WEEKLY).users = [⟨9, "§aOld".toList, [], 1, "Days".toList, 3⟩] ∧
      (st1.top.get .WEEKLY).lastUpdate = 7 :=
  C22_other_categories_unchanged true .MONTHLY .WEEKLY 42 _ (by decide)

end Leaderboard
